import Mathlib

/-!
# Route table of `router.Serve` (internal/router/router.go)

A shallow embedding of `Serve`: the function builds a gin engine, installs four
engine-level middlewares, and registers thirteen routes under the configured API
prefix.  The embedding passes the engine and the router groups as explicit
values; text that gin treats as a byte string (route paths) is a `List Char`.

The calls that `Serve` makes into gin (`New`, `Use`, `Group`, `GET`/`POST`/...,
path joining, route lookup), into gin-contrib/sessions and into Go's `path`
package are modelled from the documented behaviour of those libraries; the
sequence of calls, their arguments and their order are those of router.go.
-/

namespace Router

/-! ## Configuration (`config.Config`) -/

/-- The `App` section of the configuration, with the fields `Serve` reads. -/
structure AppConfig where
  Env : String
  AppName : String
  Addr : String
  APIPrefix : String
  SessionSecret : String
  SessionCookieName : String
  SessionDomain : String
  SessionAge : Int
  SessionHttpOnly : Bool
  SessionSecure : Bool
  deriving DecidableEq

/-- The `Redis` section of the configuration, with the fields `Serve` reads. -/
structure RedisConfig where
  Host : String
  Port : Int
  Username : String
  Password : String
  DB : Int
  MinIdleConn : Int
  deriving DecidableEq

/-- The process-wide `config.Config` value. -/
structure Config where
  App : AppConfig
  Redis : RedisConfig
  deriving DecidableEq

/-- What `Serve` takes from outside the configuration: the gin mode in force
when it starts (gin's default is "debug"), and the answers to the two calls that
can fail, `redis.NewStoreWithDB` and `r.Run`, where `none` means the call
succeeded. -/
structure Env where
  ginMode : String
  storeErr : Option String
  runErr : Option String
  deriving DecidableEq

/-! ## Session store (`gin-contrib/sessions`) -/

/-- The fields of `sessions.Options` that `Serve` sets. -/
structure Options where
  Path : String
  Domain : String
  MaxAge : Int
  HttpOnly : Bool
  Secure : Bool
  deriving DecidableEq

/-- A redis session store: the arguments it was created with and the cookie
options installed on it (`none` until `Options` is called). -/
structure Store where
  size : Int
  network : String
  address : String
  username : String
  password : String
  DB : String
  keyPairs : List String
  options : Option Options
  deriving DecidableEq

/-- The call `redis.NewStoreWithDB(size, network, address, username, password, DB, keyPairs...)`:
the error the environment reports, or a store without options. -/
def NewStoreWithDB (env : Env) (size : Int) (network address username password DB : String)
    (keyPairs : List String) : Except String Store :=
  match env.storeErr with
  | some err => .error err
  | none => .ok ⟨size, network, address, username, password, DB, keyPairs, none⟩

/-- The method `sessionStore.Options(opts)`: installs the cookie options. -/
def Store.Options (s : Store) (opts : Options) : Store :=
  { s with options := some opts }

/-! ## Handlers -/

/-- The handler functions that `Serve` places in chains, named as in router.go
(package in the comment). -/
inductive Handler where
  /-- The result of gin.Recovery(). -/
  | Recovery
  /-- The result of sessions.Sessions(name, store). -/
  | Sessions (name : String) (store : Store)
  /-- The result of otelgin.Middleware(service). -/
  | Middleware (service : String)
  /-- The result of loggerMiddleware(). -/
  | loggerMiddleware
  /-- The result of oauth.LoginRequired(). -/
  | LoginRequired
  /-- The result of project.ProjectCreatorPermMiddleware(). -/
  | ProjectCreatorPermMiddleware
  /-- The result of project.ReceiveProjectMiddleware(). -/
  | ReceiveProjectMiddleware
  /-- The result of ginSwagger.WrapHandler(swaggerFiles.Handler). -/
  | WrapHandler
  /-- The function health.Health. -/
  | Health
  /-- The function oauth.GetLoginURL. -/
  | GetLoginURL
  /-- The function oauth.Logout. -/
  | Logout
  /-- The function oauth.Callback. -/
  | Callback
  /-- The function oauth.UserInfo. -/
  | UserInfo
  /-- The function project.CreateProject. -/
  | CreateProject
  /-- The function project.UpdateProject. -/
  | UpdateProject
  /-- The function project.DeleteProject. -/
  | DeleteProject
  /-- The function project.ReceiveProject. -/
  | ReceiveProject
  /-- The function project.ListReceiveHistory. -/
  | ListReceiveHistory
  /-- The function project.GetProject. -/
  | GetProject
  /-- The function project.ListTags. -/
  | ListTags
  deriving DecidableEq

/-! ## Paths (`path.Clean`, `path.Join`, gin's `joinPaths`) -/

/-- Splits a path at every slash: the text between consecutive slashes, in order
(so a path with n slashes has n+1 pieces, some possibly empty). -/
def splitPath : List Char → List (List Char)
  | [] => [[]]
  | c :: cs =>
    if c = '/' then [] :: splitPath cs
    else
      match splitPath cs with
      | [] => [[c]]
      | s :: rest => (c :: s) :: rest

/-- Joins path elements with single slashes between them. -/
def joinSegs : List (List Char) → List Char
  | [] => []
  | [s] => s
  | s :: t :: rest => s ++ '/' :: joinSegs (t :: rest)

/-- One step of `path.Clean` on the list of elements kept so far: an empty
element (doubled slash) and `.` are dropped; `..` removes the last kept element,
is dropped at the root of a rooted path, and is kept at the start of an unrooted
one; every other element is kept. -/
def cleanStep (rooted : Bool) (kept : List (List Char)) (seg : List Char) : List (List Char) :=
  if seg = [] ∨ seg = ['.'] then kept
  else if seg = ['.', '.'] then
    if rooted then kept.dropLast
    else if kept = [] ∨ kept.getLast? = some ['.', '.'] then kept ++ [seg]
    else kept.dropLast
  else kept ++ [seg]

/-- Go's `path.Clean`: the shortest path equivalent to the argument by lexical
processing; the empty path becomes `.`, a rooted result keeps its leading slash. -/
def Clean (p : List Char) : List Char :=
  if p = [] then ['.']
  else
    let rooted := p.head? = some '/'
    let kept := (splitPath p).foldl (cleanStep rooted) []
    if rooted then '/' :: joinSegs kept
    else if kept = [] then ['.'] else joinSegs kept

/-- Go's `path.Join` on two elements: empty elements are ignored, the rest are
joined with a slash and cleaned; all empty gives the empty string. -/
def pathJoin (a b : List Char) : List Char :=
  if a = [] ∧ b = [] then []
  else if a = [] then Clean b
  else if b = [] then Clean a
  else Clean (a ++ '/' :: b)

/-- The helper `joinPaths` of gin: an empty relative path leaves the absolute
path as it is; otherwise the two are joined and cleaned, and a trailing slash of
the relative path is restored. -/
def joinPaths (absolutePath relativePath : List Char) : List Char :=
  if relativePath = [] then absolutePath
  else
    let finalPath := pathJoin absolutePath relativePath
    if relativePath.getLast? = some '/' ∧ finalPath.getLast? ≠ some '/' then finalPath ++ ['/']
    else finalPath

/-! ## gin engine, groups and registration -/

/-- A gin router group: the middlewares routes registered through it inherit,
and the path its routes are relative to. -/
structure RouterGroup where
  Handlers : List Handler
  basePath : List Char
  deriving DecidableEq

/-- One registered route: HTTP method, full path pattern and the complete
handler chain (inherited middlewares followed by the route's own handlers). -/
structure RouteInfo where
  Method : String
  Path : List Char
  Handlers : List Handler
  deriving DecidableEq

/-- A gin engine: its mode, its root group and the routes registered so far, in
registration order. -/
structure Engine where
  mode : String
  rootGroup : RouterGroup
  trees : List RouteInfo
  deriving DecidableEq

/-- The call `gin.New()`: no middleware, base path `/`, no routes. -/
def New (mode : String) : Engine :=
  ⟨mode, ⟨[], ['/']⟩, []⟩

/-- The method `group.Use(middleware...)`: appends to the group's middlewares. -/
def RouterGroup.Use (group : RouterGroup) (middleware : List Handler) : RouterGroup :=
  { group with Handlers := group.Handlers ++ middleware }

/-- The method `engine.Use(middleware...)`: `Use` on the engine's root group. -/
def Engine.Use (engine : Engine) (middleware : List Handler) : Engine :=
  { engine with rootGroup := engine.rootGroup.Use middleware }

/-- The method `group.combineHandlers`: the group's middlewares followed by the
given handlers.  (gin refuses a chain of 63 or more entries; the chains of
`Serve` have at most seven, see `Serve_addRoute_asserts`.) -/
def RouterGroup.combineHandlers (group : RouterGroup) (handlers : List Handler) : List Handler :=
  group.Handlers ++ handlers

/-- The method `group.calculateAbsolutePath`. -/
def RouterGroup.calculateAbsolutePath (group : RouterGroup) (relativePath : List Char) :
    List Char :=
  joinPaths group.basePath relativePath

/-- The method `group.Group(relativePath)`: a new group that starts from this
group's middlewares and whose base path is the joined path. -/
def RouterGroup.Group (group : RouterGroup) (relativePath : List Char) : RouterGroup :=
  ⟨group.combineHandlers [], group.calculateAbsolutePath relativePath⟩

/-- The method `group.handle(httpMethod, relativePath, handlers)`: registers the
route with its full path and combined chain.  The table records the
registrations in order; gin's refusal of conflicting wildcard patterns at
insertion is not part of the model. -/
def Engine.handle (engine : Engine) (group : RouterGroup) (httpMethod : String)
    (relativePath : List Char) (handlers : List Handler) : Engine :=
  { engine with
    trees := engine.trees ++
      [⟨httpMethod, group.calculateAbsolutePath relativePath, group.combineHandlers handlers⟩] }

/-- The method `group.GET(relativePath, handlers...)`. -/
def Engine.GET (engine : Engine) (group : RouterGroup) (relativePath : List Char)
    (handlers : List Handler) : Engine :=
  engine.handle group "GET" relativePath handlers

/-- The method `group.POST(relativePath, handlers...)`. -/
def Engine.POST (engine : Engine) (group : RouterGroup) (relativePath : List Char)
    (handlers : List Handler) : Engine :=
  engine.handle group "POST" relativePath handlers

/-- The method `group.PUT(relativePath, handlers...)`. -/
def Engine.PUT (engine : Engine) (group : RouterGroup) (relativePath : List Char)
    (handlers : List Handler) : Engine :=
  engine.handle group "PUT" relativePath handlers

/-- The method `group.DELETE(relativePath, handlers...)`. -/
def Engine.DELETE (engine : Engine) (group : RouterGroup) (relativePath : List Char)
    (handlers : List Handler) : Engine :=
  engine.handle group "DELETE" relativePath handlers

/-- The method `engine.Run(addr)`: serves until it fails; the error the
environment reports, or the engine that is being served. -/
def Engine.Run (engine : Engine) (_addr : String) (env : Env) : Except String Engine :=
  match env.runErr with
  | some err => .error err
  | none => .ok engine

/-! ## `Serve` -/

/-- The function `Serve` of router.go, lines 22-103.  The result is the engine
handed to `r.Run`, or the message of the `log.Fatalf` that ended the process.
The deferred `otel_trace.Shutdown` does not touch the engine and is left out.
Line 87 is written `+ projectRouter.GET("/:id", project.GetProject)`: the
operand of the leading plus is the registration call, which is what is
embedded. -/
def Serve (cfg : Config) (env : Env) : Except String Engine :=
  let mode := if cfg.App.Env = "production" then "release" else env.ginMode
  let r := New mode
  let r := r.Use [Handler.Recovery]
  match NewStoreWithDB env cfg.Redis.MinIdleConn "tcp"
      (cfg.Redis.Host ++ ":" ++ toString cfg.Redis.Port)
      cfg.Redis.Username cfg.Redis.Password (toString cfg.Redis.DB)
      [cfg.App.SessionSecret] with
  | .error err => .error ("[API] init session store failed: " ++ err ++ "\n")
  | .ok sessionStore =>
    let sessionStore := sessionStore.Options
      { Path := "/"
        Domain := cfg.App.SessionDomain
        MaxAge := cfg.App.SessionAge
        HttpOnly := cfg.App.SessionHttpOnly
        Secure := cfg.App.SessionSecure }
    let r := r.Use [Handler.Sessions cfg.App.SessionCookieName sessionStore]
    let r := r.Use [Handler.Middleware cfg.App.AppName, Handler.loggerMiddleware]
    let apiGroup := r.rootGroup.Group cfg.App.APIPrefix.toList
    let r := r.GET apiGroup "/swagger/*any".toList [Handler.WrapHandler]
    let apiV1Router := apiGroup.Group "/v1".toList
    let r := r.GET apiV1Router "/health".toList [Handler.Health]
    let r := r.GET apiV1Router "/oauth/login".toList [Handler.GetLoginURL]
    let r := r.GET apiV1Router "/oauth/logout".toList [Handler.LoginRequired, Handler.Logout]
    let r := r.POST apiV1Router "/oauth/callback".toList [Handler.Callback]
    let r := r.GET apiV1Router "/oauth/user-info".toList [Handler.LoginRequired, Handler.UserInfo]
    let projectRouter := apiV1Router.Group "/projects".toList
    let projectRouter := projectRouter.Use [Handler.LoginRequired]
    let r := r.POST projectRouter "".toList [Handler.CreateProject]
    let r := r.PUT projectRouter "/:id".toList
      [Handler.ProjectCreatorPermMiddleware, Handler.UpdateProject]
    let r := r.DELETE projectRouter "/:id".toList
      [Handler.ProjectCreatorPermMiddleware, Handler.DeleteProject]
    let r := r.POST projectRouter "/:id/receive".toList
      [Handler.ReceiveProjectMiddleware, Handler.ReceiveProject]
    let r := r.GET projectRouter "/received".toList [Handler.ListReceiveHistory]
    let r := r.GET projectRouter "/:id".toList [Handler.GetProject]
    let tagRouter := apiV1Router.Group "/tags".toList
    let tagRouter := tagRouter.Use [Handler.LoginRequired]
    let r := r.GET tagRouter "".toList [Handler.ListTags]
    match r.Run cfg.App.Addr env with
    | .error err => .error ("[API] serve api failed: " ++ err ++ "\n")
    | .ok served => .ok served

/-! ## Normal form of the API prefix -/

/-- The path that lists the given elements, each preceded by a slash. -/
def absPath : List (List Char) → List Char
  | [] => []
  | s :: rest => '/' :: (s ++ absPath rest)

/-- An element `path.Clean` keeps as it is: not empty, not `.`, not `..`, no slash. -/
def cleanSeg (s : List Char) : Bool :=
  decide (s ≠ []) && decide (s ≠ ['.']) && decide (s ≠ ['.', '.']) && decide ('/' ∉ s)

/-- The elements of the API prefix that survive gin's cleaning of the group path. -/
def prefixSegs (p : List Char) : List (List Char) :=
  (splitPath p).foldl (cleanStep true) []

/-- The API prefix as the registered paths carry it: cleaned, rooted, without a
trailing slash; empty when the prefix cleans to the root. -/
def effectivePrefix (p : List Char) : List Char :=
  absPath (prefixSegs p)

/-! ## Closed forms used in the proofs -/

/-- The session store `Serve` hands to `sessions.Sessions`, when its creation
succeeds: created from the Redis section, with the cookie options installed. -/
def sessionStoreOf (cfg : Config) : Store :=
  { size := cfg.Redis.MinIdleConn
    network := "tcp"
    address := cfg.Redis.Host ++ ":" ++ toString cfg.Redis.Port
    username := cfg.Redis.Username
    password := cfg.Redis.Password
    DB := toString cfg.Redis.DB
    keyPairs := [cfg.App.SessionSecret]
    options := some
      { Path := "/"
        Domain := cfg.App.SessionDomain
        MaxAge := cfg.App.SessionAge
        HttpOnly := cfg.App.SessionHttpOnly
        Secure := cfg.App.SessionSecure } }

/-- The engine-level middlewares in the order of the three `r.Use` calls. -/
def engineChain (cfg : Config) : List Handler :=
  [Handler.Recovery, Handler.Sessions cfg.App.SessionCookieName (sessionStoreOf cfg),
   Handler.Middleware cfg.App.AppName, Handler.loggerMiddleware]

/-- The thirteen registrations of `Serve` in order, for a given effective prefix
and engine-level chain. -/
def routeTable (pre : List Char) (mw : List Handler) : List RouteInfo :=
  [ ⟨"GET", pre ++ "/swagger/*any".toList, mw ++ [Handler.WrapHandler]⟩,
    ⟨"GET", pre ++ "/v1/health".toList, mw ++ [Handler.Health]⟩,
    ⟨"GET", pre ++ "/v1/oauth/login".toList, mw ++ [Handler.GetLoginURL]⟩,
    ⟨"GET", pre ++ "/v1/oauth/logout".toList, mw ++ [Handler.LoginRequired, Handler.Logout]⟩,
    ⟨"POST", pre ++ "/v1/oauth/callback".toList, mw ++ [Handler.Callback]⟩,
    ⟨"GET", pre ++ "/v1/oauth/user-info".toList, mw ++ [Handler.LoginRequired, Handler.UserInfo]⟩,
    ⟨"POST", pre ++ "/v1/projects".toList, mw ++ [Handler.LoginRequired, Handler.CreateProject]⟩,
    ⟨"PUT", pre ++ "/v1/projects/:id".toList,
      mw ++ [Handler.LoginRequired, Handler.ProjectCreatorPermMiddleware, Handler.UpdateProject]⟩,
    ⟨"DELETE", pre ++ "/v1/projects/:id".toList,
      mw ++ [Handler.LoginRequired, Handler.ProjectCreatorPermMiddleware, Handler.DeleteProject]⟩,
    ⟨"POST", pre ++ "/v1/projects/:id/receive".toList,
      mw ++ [Handler.LoginRequired, Handler.ReceiveProjectMiddleware, Handler.ReceiveProject]⟩,
    ⟨"GET", pre ++ "/v1/projects/received".toList,
      mw ++ [Handler.LoginRequired, Handler.ListReceiveHistory]⟩,
    ⟨"GET", pre ++ "/v1/projects/:id".toList, mw ++ [Handler.LoginRequired, Handler.GetProject]⟩,
    ⟨"GET", pre ++ "/v1/tags".toList, mw ++ [Handler.LoginRequired, Handler.ListTags]⟩ ]

/-! ## Chain execution and route lookup -/

/-- The handlers that run when gin executes a chain (`c.Next`): the chain in
order, up to and including the first handler that aborts the request. -/
def runChain (aborts : Handler → Bool) : List Handler → List Handler
  | [] => []
  | h :: rest => if aborts h then [h] else h :: runChain aborts rest

/-- The resource-permission middlewares. -/
def Handler.isPermission : Handler → Bool
  | Handler.ProjectCreatorPermMiddleware => true
  | Handler.ReceiveProjectMiddleware => true
  | _ => false

/-- The handlers that are middlewares (the values router.go obtains by calling a
constructor, as opposed to the endpoint functions it passes by name). -/
def Handler.isMiddleware : Handler → Bool
  | Handler.Recovery => true
  | Handler.Sessions _ _ => true
  | Handler.Middleware _ => true
  | Handler.loggerMiddleware => true
  | Handler.LoginRequired => true
  | Handler.ProjectCreatorPermMiddleware => true
  | Handler.ReceiveProjectMiddleware => true
  | _ => false

/-- The kind of a pattern element: 0 literal, 1 named parameter (`:name`),
2 catch-all (`*name`). -/
def segKind : List Char → Nat
  | ':' :: _ => 1
  | '*' :: _ => 2
  | _ => 0

/-- Whether a request path (split at slashes) matches a route pattern (split at
slashes): a literal element matches itself, a named parameter matches one
non-empty element, a final catch-all matches whatever is left after its slash. -/
def matchSegs : List (List Char) → List (List Char) → Bool
  | [], [] => true
  | [], _ :: _ => false
  | _ :: _, [] => false
  | p :: ps, r :: rs =>
    if segKind p = 2 then decide (ps = [])
    else if segKind p = 1 then decide (r ≠ []) && matchSegs ps rs
    else decide (p = r) && matchSegs ps rs

/-- Whether the first pattern is tried before the second by gin's lookup: at the
first element where the kinds differ, literal comes before named parameter, and
named parameter before catch-all. -/
def prefer : List (List Char) → List (List Char) → Bool
  | a :: as, b :: bs =>
    decide (segKind a < segKind b) || (decide (segKind a = segKind b) && prefer as bs)
  | _, _ => false

/-- One step of the lookup: a route of the request's method whose pattern
matches the path replaces the best route found so far when its pattern is tried
earlier by gin's tree walk. -/
def lookupStep (httpMethod : String) (path : List Char) (best : Option RouteInfo)
    (r : RouteInfo) : Option RouteInfo :=
  if r.Method = httpMethod ∧ matchSegs (splitPath r.Path) (splitPath path) = true then
    match best with
    | none => some r
    | some b => if prefer (splitPath r.Path) (splitPath b.Path) = true then some r else some b
  else best

/-- The route lookup of gin (`getValue` over the tree of the request's method),
as gin documents it for patterns whose wildcards fill whole path elements: among
the routes of that method whose pattern matches the path, the one gin's tree
walk reaches first (literal elements are tried before a named parameter, a named
parameter before a catch-all, with backtracking); `none` when no pattern
matches, in which case the request goes to gin's not-found handling. -/
def getValue (trees : List RouteInfo) (httpMethod : String) (path : List Char) :
    Option RouteInfo :=
  trees.foldl (lookupStep httpMethod path) none

/-- The base path of `apiGroup`, the group `r.Group(config.Config.App.APIPrefix)`. -/
def apiGroupPath (cfg : Config) : List Char :=
  joinPaths ['/'] cfg.App.APIPrefix.toList

/-- The base path of `apiV1Router`, the group `apiGroup.Group("/v1")`. -/
def apiV1Path (cfg : Config) : List Char :=
  joinPaths (apiGroupPath cfg) "/v1".toList

/-- The cookie name and options of the first `sessions.Sessions` middleware of a
chain. -/
def sessionCookie : List Handler → Option (String × Options)
  | [] => none
  | Handler.Sessions name store :: _ => store.options.map (fun o => (name, o))
  | _ :: rest => sessionCookie rest

/-- The base path of `projectRouter`, the group `apiV1Router.Group("/projects")`. -/
def projectRouterPath (cfg : Config) : List Char :=
  joinPaths (apiV1Path cfg) "/projects".toList

/-- The base path of `tagRouter`, the group `apiV1Router.Group("/tags")`. -/
def tagRouterPath (cfg : Config) : List Char :=
  joinPaths (apiV1Path cfg) "/tags".toList

/-- Whether a route's path lies under the base path of `projectRouter` or of
`tagRouter`. -/
def underProtectedGroup (cfg : Config) (r : RouteInfo) : Bool :=
  (projectRouterPath cfg).isPrefixOf r.Path || (tagRouterPath cfg).isPrefixOf r.Path

/-- A sample configuration: production mode, API prefix `/api`. -/
def demoConfig : Config :=
  { App :=
      { Env := "production", AppName := "cdk", Addr := ":8000", APIPrefix := "/api",
        SessionSecret := "secret", SessionCookieName := "cdk_session",
        SessionDomain := "cdk.example", SessionAge := 86400,
        SessionHttpOnly := true, SessionSecure := false }
    Redis :=
      { Host := "127.0.0.1", Port := 6379, Username := "", Password := "pw", DB := 0,
        MinIdleConn := 10 } }

/-- A second sample configuration that shares no field value with `demoConfig`;
its API prefix ends in a slash. -/
def otherConfig : Config :=
  { App :=
      { Env := "development", AppName := "cdk-dev", Addr := ":9000", APIPrefix := "/api/",
        SessionSecret := "other", SessionCookieName := "sid",
        SessionDomain := "localhost", SessionAge := 60,
        SessionHttpOnly := false, SessionSecure := true }
    Redis :=
      { Host := "redis", Port := 6380, Username := "cdk", Password := "", DB := 1,
        MinIdleConn := 2 } }

/-- An environment in which the session store is created and the server runs. -/
def okEnv : Env := { ginMode := "debug", storeErr := none, runErr := none }

/-- The engine `Serve` runs for `demoConfig`. -/
def demoEngine : Engine :=
  { mode := "release"
    rootGroup := { Handlers := engineChain demoConfig, basePath := ['/'] }
    trees := routeTable "/api".toList (engineChain demoConfig) }

/-- A `demoConfig` whose API prefix lacks the leading slash. -/
def unrootedConfig : Config :=
  { demoConfig with App := { demoConfig.App with APIPrefix := "api" } }

/-- Whether an API prefix is already in the form gin registers: empty, or a
rooted path other than `/` that `path.Clean` leaves unchanged. -/
def cleanPrefix (p : List Char) : Prop :=
  p = [] ∨ (p.head? = some '/' ∧ p ≠ ['/'] ∧ Clean p = p)

/-- The paths of the routes below `/v1`, relative to it, in registration order. -/
def v1RelativePaths : List (List Char) :=
  [ "/health".toList, "/oauth/login".toList, "/oauth/logout".toList,
    "/oauth/callback".toList, "/oauth/user-info".toList, "/projects".toList,
    "/projects/:id".toList, "/projects/:id".toList, "/projects/:id/receive".toList,
    "/projects/received".toList, "/projects/:id".toList, "/tags".toList ]

/-! ## Lemmas on paths -/

theorem splitPath_ne_nil (p : List Char) : splitPath p ≠ [] := by
  cases p with
  | nil => simp [splitPath]
  | cons c cs =>
    simp only [splitPath]
    split_ifs
    · simp
    · split <;> simp

theorem splitPath_slash (q : List Char) : splitPath ('/' :: q) = [] :: splitPath q := by
  simp [splitPath]

theorem splitPath_seg_append (s : List Char) (hs : '/' ∉ s) (w : List Char) :
    splitPath (s ++ w) =
      (s ++ (splitPath w).headD []) :: (splitPath w).tail := by
  induction s with
  | nil =>
    have h := splitPath_ne_nil w
    cases hw : splitPath w with
    | nil => exact absurd hw h
    | cons a b => simp [hw]
  | cons c cs ih =>
    have hc : c ≠ '/' := by
      intro h; apply hs; simp [h]
    have hcs : '/' ∉ cs := by
      intro h; apply hs; simp [h]
    have := ih hcs
    rw [List.cons_append, splitPath, if_neg hc, this]
    simp

theorem splitPath_mem_noSlash (p : List Char) : ∀ s ∈ splitPath p, '/' ∉ s := by
  induction p with
  | nil => simp [splitPath]
  | cons c cs ih =>
    intro s hs
    simp only [splitPath] at hs
    split_ifs at hs with hc
    · rcases List.mem_cons.1 hs with h | h
      · simp [h]
      · exact ih s h
    · have hne := splitPath_ne_nil cs
      cases hsp : splitPath cs with
      | nil => exact absurd hsp hne
      | cons a b =>
        rw [hsp] at hs ih
        simp only at hs
        rcases List.mem_cons.1 hs with h | h
        · subst h
          have ha := ih a (by simp)
          intro hmem
          rcases List.mem_cons.1 hmem with h1 | h1
          · exact hc h1.symm
          · exact ha h1
        · exact ih s (by simp [h])

theorem splitPath_mem_subset (p : List Char) : ∀ s ∈ splitPath p, ∀ c ∈ s, c ∈ p := by
  induction p with
  | nil => simp [splitPath]
  | cons d cs ih =>
    intro s hs c hc
    simp only [splitPath] at hs
    split_ifs at hs with hd
    · rcases List.mem_cons.1 hs with h | h
      · subst h; simp at hc
      · exact List.mem_cons_of_mem _ (ih s h c hc)
    · have hne := splitPath_ne_nil cs
      cases hsp : splitPath cs with
      | nil => exact absurd hsp hne
      | cons a b =>
        rw [hsp] at hs ih
        simp only at hs
        rcases List.mem_cons.1 hs with h | h
        · subst h
          rcases List.mem_cons.1 hc with h1 | h1
          · simp [h1]
          · exact List.mem_cons_of_mem _ (ih a (by simp) c h1)
        · exact List.mem_cons_of_mem _ (ih s (by simp [h]) c hc)

theorem splitPath_absPath_append (K : List (List Char)) (hK : ∀ s ∈ K, '/' ∉ s)
    (q : List Char) :
    splitPath (absPath K ++ '/' :: q) = [] :: (K ++ splitPath q) := by
  induction K with
  | nil => simp [absPath, splitPath]
  | cons s K ih =>
    have hs : '/' ∉ s := hK s (by simp)
    have ih2 := ih (fun t ht => hK t (by simp [ht]))
    simp only [absPath, List.cons_append, List.append_assoc, splitPath_slash]
    rw [splitPath_seg_append s hs, ih2]
    simp

theorem cleanSeg_iff (s : List Char) :
    cleanSeg s = true ↔ s ≠ [] ∧ s ≠ ['.'] ∧ s ≠ ['.', '.'] ∧ '/' ∉ s := by
  simp [cleanSeg, and_assoc]

theorem cleanStep_cleanSeg (K : List (List Char)) (s : List Char) (hs : cleanSeg s = true) :
    cleanStep true K s = K ++ [s] := by
  obtain ⟨h1, h2, h3, _⟩ := (cleanSeg_iff s).1 hs
  simp [cleanStep, h1, h2, h3]

theorem foldl_cleanStep_clean (B : List (List Char)) (hB : ∀ s ∈ B, cleanSeg s = true) :
    ∀ K, B.foldl (cleanStep true) K = K ++ B := by
  induction B with
  | nil => simp
  | cons s B ih =>
    intro K
    simp only [List.foldl_cons]
    rw [cleanStep_cleanSeg K s (hB s (by simp)), ih (fun t ht => hB t (by simp [ht]))]
    simp

theorem cleanStep_mem (K : List (List Char)) (s t : List Char)
    (ht : t ∈ cleanStep true K s) :
    t ∈ K ∨ (t = s ∧ s ≠ [] ∧ s ≠ ['.'] ∧ s ≠ ['.', '.']) := by
  by_cases h1 : s = [] ∨ s = ['.']
  · simp only [cleanStep, h1, if_true] at ht
    exact Or.inl ht
  · by_cases h2 : s = ['.', '.']
    · simp only [cleanStep, h1, h2, if_true, if_false] at ht
      exact Or.inl (List.mem_of_mem_dropLast ht)
    · simp only [cleanStep, h1, h2, if_false] at ht
      rcases List.mem_append.1 ht with h | h
      · exact Or.inl h
      · right
        simp only [List.mem_singleton] at h
        subst h
        push_neg at h1
        exact ⟨rfl, h1.1, h1.2, h2⟩

theorem foldl_cleanStep_mem (L : List (List Char)) :
    ∀ K t, t ∈ L.foldl (cleanStep true) K →
      t ∈ K ∨ (t ∈ L ∧ t ≠ [] ∧ t ≠ ['.'] ∧ t ≠ ['.', '.']) := by
  induction L with
  | nil => intro K t ht; exact Or.inl (by simpa using ht)
  | cons s L ih =>
    intro K t ht
    simp only [List.foldl_cons] at ht
    rcases ih _ t ht with h | h
    · rcases cleanStep_mem K s t h with h1 | ⟨h1, h2⟩
      · exact Or.inl h1
      · subst h1
        exact Or.inr ⟨by simp, h2⟩
    · exact Or.inr ⟨List.mem_cons_of_mem _ h.1, h.2⟩

theorem prefixSegs_clean (p : List Char) : ∀ s ∈ prefixSegs p, cleanSeg s = true := by
  intro s hs
  rcases foldl_cleanStep_mem (splitPath p) [] s hs with h | ⟨h1, h2, h3, h4⟩
  · simp at h
  · exact (cleanSeg_iff s).2 ⟨h2, h3, h4, splitPath_mem_noSlash p s h1⟩

theorem prefixSegs_subset (p : List Char) : ∀ s ∈ prefixSegs p, ∀ c ∈ s, c ∈ p := by
  intro s hs
  rcases foldl_cleanStep_mem (splitPath p) [] s hs with h | ⟨h1, _⟩
  · simp at h
  · exact splitPath_mem_subset p s h1

theorem cleanSeg_noSlash {K : List (List Char)} (hK : ∀ s ∈ K, cleanSeg s = true) :
    ∀ s ∈ K, '/' ∉ s :=
  fun s hs => ((cleanSeg_iff s).1 (hK s hs)).2.2.2

theorem absPath_append (X Y : List (List Char)) : absPath (X ++ Y) = absPath X ++ absPath Y := by
  induction X with
  | nil => simp [absPath]
  | cons s X ih => simp [absPath, ih]

theorem slash_joinSegs (L : List (List Char)) (hL : L ≠ []) : '/' :: joinSegs L = absPath L := by
  induction L with
  | nil => exact absurd rfl hL
  | cons s L ih =>
    cases L with
    | nil => simp [joinSegs, absPath]
    | cons t L =>
      have := ih (by simp)
      simp only [joinSegs, absPath] at this ⊢
      rw [this]

/-- Cleaning a rooted path that starts with already clean elements. -/
theorem Clean_absPath_append (K : List (List Char)) (hK : ∀ s ∈ K, cleanSeg s = true)
    (w : List Char) :
    Clean (absPath K ++ '/' :: w) =
      '/' :: joinSegs ((splitPath w).foldl (cleanStep true) K) := by
  have hne : absPath K ++ '/' :: w ≠ [] := by simp
  have hhead : (absPath K ++ '/' :: w).head? = some '/' := by
    cases K <;> simp [absPath]
  unfold Clean
  simp only [hne, if_false, hhead, decide_True, if_true]
  rw [splitPath_absPath_append K (cleanSeg_noSlash hK)]
  simp only [List.foldl_cons, List.foldl_append]
  have h0 : cleanStep true [] [] = [] := by simp [cleanStep]
  rw [h0, foldl_cleanStep_clean K hK]
  simp

theorem joinPaths_root (p : List Char) :
    ∃ u, (u = [] ∨ u = ['/']) ∧ (prefixSegs p = [] → u = ['/']) ∧
      joinPaths ['/'] p = absPath (prefixSegs p) ++ u := by
  by_cases hp : p = []
  · refine ⟨['/'], Or.inr rfl, fun _ => rfl, ?_⟩
    subst hp
    simp [joinPaths, prefixSegs, splitPath, cleanStep, absPath]
  · have hc : pathJoin ['/'] p = '/' :: joinSegs (prefixSegs p) := by
      have h := Clean_absPath_append [] (by simp) ('/' :: p)
      simp only [absPath, List.nil_append] at h
      simp only [pathJoin, hp, and_false, if_false, List.cons_ne_nil, List.singleton_append]
      rw [h, splitPath_slash]
      simp [prefixSegs, cleanStep]
    by_cases hK : prefixSegs p = []
    · refine ⟨['/'], Or.inr rfl, fun _ => rfl, ?_⟩
      simp [joinPaths, hp, hc, hK, joinSegs, absPath]
    · rw [slash_joinSegs _ hK] at hc
      by_cases ht : p.getLast? = some '/' ∧ (absPath (prefixSegs p)).getLast? ≠ some '/'
      · refine ⟨['/'], Or.inr rfl, fun h => absurd h hK, ?_⟩
        simp only [joinPaths, hp, if_false, hc, ht, and_self, if_true]
        simp [ht.2]
      · refine ⟨[], Or.inl rfl, fun h => absurd h hK, ?_⟩
        simp only [joinPaths, hp, if_false, hc, ht, if_false]
        simp

theorem joinPaths_abs (K : List (List Char)) (hK : ∀ s ∈ K, cleanSeg s = true)
    (u : List Char) (hu : u = [] ∨ u = ['/']) (hKu : K = [] → u = ['/'])
    (rel : List Char) (B : List (List Char)) (hrel : splitPath rel = [] :: B)
    (hB : ∀ s ∈ B, cleanSeg s = true) (hBne : B ≠ [])
    (hlast : rel.getLast? ≠ some '/') :
    joinPaths (absPath K ++ u) rel = absPath (K ++ B) := by
  have hrne : rel ≠ [] := by
    intro h; subst h
    simp [splitPath] at hrel
    exact hBne hrel
  have hbase : absPath K ++ u ≠ [] := by
    cases K with
    | nil => simp [hKu rfl]
    | cons s K => simp [absPath]
  have hKB : K ++ B ≠ [] := by simp [hBne]
  have hfold : (splitPath rel).foldl (cleanStep true) K = K ++ B := by
    rw [hrel, List.foldl_cons]
    have h0 : cleanStep true K [] = K := by simp [cleanStep]
    rw [h0, foldl_cleanStep_clean B hB]
  have hj : pathJoin (absPath K ++ u) rel = absPath (K ++ B) := by
    simp only [pathJoin, hbase, hrne, and_self, false_and, and_false, if_false]
    rcases hu with h | h
    · subst h
      rw [List.append_nil, Clean_absPath_append K hK, hfold, slash_joinSegs _ hKB]
    · subst h
      rw [List.append_assoc, List.singleton_append, Clean_absPath_append K hK, splitPath_slash,
        List.foldl_cons]
      have h0 : cleanStep true K [] = K := by simp [cleanStep]
      rw [h0, hfold, slash_joinSegs _ hKB]
  simp only [joinPaths, hrne, if_false, hj, hlast, false_and]

theorem joinPaths_abs_nonempty (K : List (List Char)) (hK : ∀ s ∈ K, cleanSeg s = true)
    (hKne : K ≠ []) (rel : List Char) (B : List (List Char)) (hrel : splitPath rel = [] :: B)
    (hB : ∀ s ∈ B, cleanSeg s = true) (hBne : B ≠ [])
    (hlast : rel.getLast? ≠ some '/') :
    joinPaths (absPath K) rel = absPath (K ++ B) := by
  have h := joinPaths_abs K hK [] (Or.inl rfl) (fun h => absurd h hKne) rel B hrel hB hBne hlast
  simpa using h

theorem Serve_ok_iff (cfg : Config) (env : Env) (e : Engine) :
    Serve cfg env = .ok e ↔
      env.storeErr = none ∧ env.runErr = none ∧
        e = ⟨if cfg.App.Env = "production" then "release" else env.ginMode,
             ⟨engineChain cfg, ['/']⟩,
             routeTable (effectivePrefix cfg.App.APIPrefix.toList) (engineChain cfg)⟩ := by
  obtain ⟨u, hu, hKu, hroot⟩ := joinPaths_root cfg.App.APIPrefix.toList
  have hK := prefixSegs_clean cfg.App.APIPrefix.toList
  unfold effectivePrefix
  generalize hKdef : prefixSegs cfg.App.APIPrefix.toList = K at hu hKu hroot hK
  have j1 : ∀ rel B, splitPath rel = [] :: B → (∀ s ∈ B, cleanSeg s = true) → B ≠ [] →
      rel.getLast? ≠ some '/' → joinPaths (absPath K ++ u) rel = absPath (K ++ B) :=
    fun rel B h1 h2 h3 h4 => joinPaths_abs K hK u hu hKu rel B h1 h2 h3 h4
  have hsw := j1 "/swagger/*any".toList ["swagger".toList, "*any".toList]
    (by decide) (by decide) (by decide) (by decide)
  have hv1 := j1 "/v1".toList ["v1".toList] (by decide) (by decide) (by decide) (by decide)
  have hK1 : ∀ s ∈ K ++ ["v1".toList], cleanSeg s = true := by
    intro s hs
    rcases List.mem_append.1 hs with h | h
    · exact hK s h
    · simp only [List.mem_singleton] at h
      subst h; decide
  have j2 : ∀ rel B, splitPath rel = [] :: B → (∀ s ∈ B, cleanSeg s = true) → B ≠ [] →
      rel.getLast? ≠ some '/' →
      joinPaths (absPath (K ++ ["v1".toList])) rel = absPath ((K ++ ["v1".toList]) ++ B) :=
    fun rel B h1 h2 h3 h4 =>
      joinPaths_abs_nonempty (K ++ ["v1".toList]) hK1 (by simp) rel B h1 h2 h3 h4
  have hhealth := j2 "/health".toList ["health".toList]
    (by decide) (by decide) (by decide) (by decide)
  have hlogin := j2 "/oauth/login".toList ["oauth".toList, "login".toList]
    (by decide) (by decide) (by decide) (by decide)
  have hlogout := j2 "/oauth/logout".toList ["oauth".toList, "logout".toList]
    (by decide) (by decide) (by decide) (by decide)
  have hcallback := j2 "/oauth/callback".toList ["oauth".toList, "callback".toList]
    (by decide) (by decide) (by decide) (by decide)
  have huserinfo := j2 "/oauth/user-info".toList ["oauth".toList, "user-info".toList]
    (by decide) (by decide) (by decide) (by decide)
  have hprojects := j2 "/projects".toList ["projects".toList]
    (by decide) (by decide) (by decide) (by decide)
  have htags := j2 "/tags".toList ["tags".toList]
    (by decide) (by decide) (by decide) (by decide)
  have hK2 : ∀ s ∈ (K ++ ["v1".toList]) ++ ["projects".toList], cleanSeg s = true := by
    intro s hs
    rcases List.mem_append.1 hs with h | h
    · exact hK1 s h
    · simp only [List.mem_singleton] at h
      subst h; decide
  have j3 : ∀ rel B, splitPath rel = [] :: B → (∀ s ∈ B, cleanSeg s = true) → B ≠ [] →
      rel.getLast? ≠ some '/' →
      joinPaths (absPath ((K ++ ["v1".toList]) ++ ["projects".toList])) rel =
        absPath (((K ++ ["v1".toList]) ++ ["projects".toList]) ++ B) :=
    fun rel B h1 h2 h3 h4 =>
      joinPaths_abs_nonempty _ hK2 (by simp) rel B h1 h2 h3 h4
  have hid := j3 "/:id".toList [":id".toList] (by decide) (by decide) (by decide) (by decide)
  have hrecv := j3 "/:id/receive".toList [":id".toList, "receive".toList]
    (by decide) (by decide) (by decide) (by decide)
  have hreceived := j3 "/received".toList ["received".toList]
    (by decide) (by decide) (by decide) (by decide)
  have hempty : ∀ a : List Char, joinPaths a "".toList = a := by
    intro a; simp [joinPaths]
  have a1 : absPath ["swagger".toList, "*any".toList] = "/swagger/*any".toList := by decide
  have a2 : absPath ["v1".toList, "health".toList] = "/v1/health".toList := by decide
  have a3 : absPath ["v1".toList, "oauth".toList, "login".toList] = "/v1/oauth/login".toList := by
    decide
  have a4 : absPath ["v1".toList, "oauth".toList, "logout".toList] =
      "/v1/oauth/logout".toList := by decide
  have a5 : absPath ["v1".toList, "oauth".toList, "callback".toList] =
      "/v1/oauth/callback".toList := by decide
  have a6 : absPath ["v1".toList, "oauth".toList, "user-info".toList] =
      "/v1/oauth/user-info".toList := by decide
  have a7 : absPath ["v1".toList, "projects".toList] = "/v1/projects".toList := by decide
  have a8 : absPath ["v1".toList, "projects".toList, ":id".toList] =
      "/v1/projects/:id".toList := by decide
  have a9 : absPath ["v1".toList, "projects".toList, ":id".toList, "receive".toList] =
      "/v1/projects/:id/receive".toList := by decide
  have a10 : absPath ["v1".toList, "projects".toList, "received".toList] =
      "/v1/projects/received".toList := by decide
  have a11 : absPath ["v1".toList, "tags".toList] = "/v1/tags".toList := by decide
  obtain ⟨ginMode, storeErr, runErr⟩ := env
  cases storeErr with
  | some err => simp [Serve, NewStoreWithDB]
  | none =>
    cases runErr with
    | some err => simp [Serve, NewStoreWithDB, Engine.Run]
    | none =>
      simp only [Serve, NewStoreWithDB, Engine.Run, Engine.GET, Engine.POST, Engine.PUT,
        Engine.DELETE, Engine.handle, Engine.Use, RouterGroup.Use, RouterGroup.Group,
        RouterGroup.combineHandlers, RouterGroup.calculateAbsolutePath, New, Store.Options,
        hroot, hsw, hv1, hhealth, hlogin, hlogout, hcallback, huserinfo, hprojects, htags,
        hid, hrecv, hreceived, hempty]
      simp only [List.append_assoc, List.cons_append, List.nil_append,
        List.append_nil, absPath_append, a1, a2, a3, a4, a5, a6, a7, a8, a9, a10, a11,
        routeTable, engineChain, sessionStoreOf, true_and, Except.ok.injEq]
      exact eq_comm

/-! ## Lemmas on route lookup and chains -/

theorem splitPath_noSlash (x : List Char) (hx : '/' ∉ x) : splitPath x = [x] := by
  have h := splitPath_seg_append x hx []
  simpa [splitPath] using h

theorem segKind_literal (s : List Char) (hs : ∀ c ∈ s, c ≠ ':' ∧ c ≠ '*') : segKind s = 0 := by
  cases s with
  | nil => rfl
  | cons c cs =>
    have h := hs c (by simp)
    unfold segKind
    split <;> simp_all

theorem matchSegs_common (K : List (List Char)) (hK : ∀ s ∈ K, segKind s = 0)
    (P R : List (List Char)) : matchSegs (K ++ P) (K ++ R) = matchSegs P R := by
  induction K with
  | nil => rfl
  | cons s K ih =>
    have h0 : segKind s = 0 := hK s (by simp)
    simp only [List.cons_append, matchSegs, h0]
    simp [ih (fun t ht => hK t (by simp [ht]))]

theorem prefer_common (K P Q : List (List Char)) : prefer (K ++ P) (K ++ Q) = prefer P Q := by
  induction K with
  | nil => rfl
  | cons s K ih => simp [prefer, ih]

theorem prefixSegs_literal (p : List Char) (hp : ∀ c ∈ p, c ≠ ':' ∧ c ≠ '*') :
    ∀ s ∈ prefixSegs p, segKind s = 0 :=
  fun s hs => segKind_literal s (fun c hc => hp c (prefixSegs_subset p s hs c hc))

theorem apiGroupPath_eq (cfg : Config) :
    ∃ u, (u = [] ∨ u = ['/']) ∧
      apiGroupPath cfg = effectivePrefix cfg.App.APIPrefix.toList ++ u := by
  obtain ⟨u, hu, _, h⟩ := joinPaths_root cfg.App.APIPrefix.toList
  exact ⟨u, hu, h⟩

theorem apiV1Path_eq (cfg : Config) :
    apiV1Path cfg = effectivePrefix cfg.App.APIPrefix.toList ++ "/v1".toList := by
  obtain ⟨u, hu, hKu, h⟩ := joinPaths_root cfg.App.APIPrefix.toList
  unfold apiV1Path apiGroupPath effectivePrefix
  rw [h, joinPaths_abs _ (prefixSegs_clean _) u hu hKu "/v1".toList ["v1".toList]
    (by decide) (by decide) (by decide) (by decide), absPath_append]
  rfl

theorem projectRouterPath_eq (cfg : Config) :
    projectRouterPath cfg = effectivePrefix cfg.App.APIPrefix.toList ++ "/v1/projects".toList := by
  obtain ⟨u, hu, hKu, h⟩ := joinPaths_root cfg.App.APIPrefix.toList
  have hK := prefixSegs_clean cfg.App.APIPrefix.toList
  have h1 := joinPaths_abs _ hK u hu hKu "/v1".toList ["v1".toList]
    (by decide) (by decide) (by decide) (by decide)
  have hK1 : ∀ s ∈ prefixSegs cfg.App.APIPrefix.toList ++ ["v1".toList], cleanSeg s = true := by
    intro s hs
    rcases List.mem_append.1 hs with h | h
    · exact hK s h
    · simp only [List.mem_singleton] at h
      subst h; decide
  have h2 := joinPaths_abs_nonempty _ hK1 (by simp) "/projects".toList ["projects".toList]
    (by decide) (by decide) (by decide) (by decide)
  unfold projectRouterPath apiV1Path apiGroupPath effectivePrefix
  rw [h, h1, h2, absPath_append, absPath_append, List.append_assoc]
  rfl

theorem tagRouterPath_eq (cfg : Config) :
    tagRouterPath cfg = effectivePrefix cfg.App.APIPrefix.toList ++ "/v1/tags".toList := by
  obtain ⟨u, hu, hKu, h⟩ := joinPaths_root cfg.App.APIPrefix.toList
  have hK := prefixSegs_clean cfg.App.APIPrefix.toList
  have h1 := joinPaths_abs _ hK u hu hKu "/v1".toList ["v1".toList]
    (by decide) (by decide) (by decide) (by decide)
  have hK1 : ∀ s ∈ prefixSegs cfg.App.APIPrefix.toList ++ ["v1".toList], cleanSeg s = true := by
    intro s hs
    rcases List.mem_append.1 hs with h | h
    · exact hK s h
    · simp only [List.mem_singleton] at h
      subst h; decide
  have h2 := joinPaths_abs_nonempty _ hK1 (by simp) "/tags".toList ["tags".toList]
    (by decide) (by decide) (by decide) (by decide)
  unfold tagRouterPath apiV1Path apiGroupPath effectivePrefix
  rw [h, h1, h2, absPath_append, absPath_append, List.append_assoc]
  rfl

theorem Serve_trees {cfg : Config} {env : Env} {e : Engine} (h : Serve cfg env = .ok e) :
    e.trees = routeTable (effectivePrefix cfg.App.APIPrefix.toList) (engineChain cfg) ∧
      e.rootGroup.Handlers = engineChain cfg := by
  obtain ⟨_, _, he⟩ := (Serve_ok_iff cfg env e).1 h
  subst he
  exact ⟨rfl, rfl⟩

/-- `Serve` hands an engine to `r.Run` whenever the session store can be created,
and returns it when the server runs. -/
theorem Serve_total (cfg : Config) (env : Env) (hs : env.storeErr = none)
    (hr : env.runErr = none) : ∃ e, Serve cfg env = .ok e :=
  ⟨_, (Serve_ok_iff cfg env _).2 ⟨hs, hr, rfl⟩⟩

/-- When the session store cannot be created, `Serve` ends with the fatal log
message and registers nothing. -/
theorem Serve_store_failure (cfg : Config) (env : Env) (err : String)
    (hs : env.storeErr = some err) :
    Serve cfg env = .error ("[API] init session store failed: " ++ err ++ "\n") := by
  simp [Serve, NewStoreWithDB, hs]

theorem runChain_stops (aborts : Handler → Bool) (h : Handler) (ha : aborts h = true)
    (before after : List Handler) :
    ∀ x ∈ runChain aborts (before ++ h :: after), x ∈ before ∨ x = h := by
  induction before with
  | nil =>
    intro x hx
    simp [runChain, ha] at hx
    exact Or.inr hx
  | cons b before ih =>
    intro x hx
    simp only [List.cons_append, runChain] at hx
    split_ifs at hx
    · simp only [List.mem_singleton] at hx
      exact Or.inl (by simp [hx])
    · rcases List.mem_cons.1 hx with h1 | h1
      · exact Or.inl (by simp [h1])
      · rcases ih x h1 with h2 | h2
        · exact Or.inl (List.mem_cons_of_mem _ h2)
        · exact Or.inr h2

/-- The routes of `Serve` that lie under `projectRouter` or `tagRouter`, in
registration order, with their complete chains. -/
theorem protected_filter {cfg : Config} {env : Env} {e : Engine} (h : Serve cfg env = .ok e) :
    e.trees.filter (underProtectedGroup cfg) =
      [ ⟨"POST", projectRouterPath cfg,
          engineChain cfg ++ [Handler.LoginRequired, Handler.CreateProject]⟩,
        ⟨"PUT", projectRouterPath cfg ++ "/:id".toList,
          engineChain cfg ++ [Handler.LoginRequired, Handler.ProjectCreatorPermMiddleware,
            Handler.UpdateProject]⟩,
        ⟨"DELETE", projectRouterPath cfg ++ "/:id".toList,
          engineChain cfg ++ [Handler.LoginRequired, Handler.ProjectCreatorPermMiddleware,
            Handler.DeleteProject]⟩,
        ⟨"POST", projectRouterPath cfg ++ "/:id/receive".toList,
          engineChain cfg ++ [Handler.LoginRequired, Handler.ReceiveProjectMiddleware,
            Handler.ReceiveProject]⟩,
        ⟨"GET", projectRouterPath cfg ++ "/received".toList,
          engineChain cfg ++ [Handler.LoginRequired, Handler.ListReceiveHistory]⟩,
        ⟨"GET", projectRouterPath cfg ++ "/:id".toList,
          engineChain cfg ++ [Handler.LoginRequired, Handler.GetProject]⟩,
        ⟨"GET", tagRouterPath cfg,
          engineChain cfg ++ [Handler.LoginRequired, Handler.ListTags]⟩ ] := by
  rw [(Serve_trees h).1]
  have hu : ∀ (m : String) (lit : List Char) (hs : List Handler),
      underProtectedGroup cfg ⟨m, effectivePrefix cfg.App.APIPrefix.toList ++ lit, hs⟩ =
        ("/v1/projects".toList.isPrefixOf lit || "/v1/tags".toList.isPrefixOf lit) := by
    intro m lit hs
    simp only [underProtectedGroup, projectRouterPath_eq, tagRouterPath_eq]
    rw [Bool.eq_iff_iff]
    simp only [Bool.or_eq_true, List.isPrefixOf_iff_prefix, List.prefix_append_right_inj]
  simp only [routeTable, List.filter_cons, hu, projectRouterPath_eq, tagRouterPath_eq,
    List.append_assoc]
  simp

theorem matchSegs_pre (K : List (List Char)) (hK0 : ∀ s ∈ K, segKind s = 0)
    (P R : List (List Char)) : matchSegs ([] :: (K ++ P)) ([] :: (K ++ R)) = matchSegs P R := by
  have := matchSegs_common ([] :: K) (by
    intro s h
    rcases List.mem_cons.1 h with h | h
    · subst h; rfl
    · exact hK0 s h) P R
  simpa using this

theorem prefer_pre (K P R : List (List Char)) :
    prefer ([] :: (K ++ P)) ([] :: (K ++ R)) = prefer P R := by
  have := prefer_common ([] :: K) P R
  simpa using this

theorem getValue_get_projects (K : List (List Char)) (hK : ∀ s ∈ K, cleanSeg s = true)
    (hK0 : ∀ s ∈ K, segKind s = 0) (mw : List Handler) :
    getValue (routeTable (absPath K) mw) "GET" (absPath K ++ "/v1/projects".toList) = none := by
  have hs := cleanSeg_noSlash hK
  simp [getValue, lookupStep, routeTable, splitPath_absPath_append K hs, matchSegs_pre K hK0, prefer_pre,
    splitPath, matchSegs, segKind, prefer]

theorem getValue_post_projects (K : List (List Char)) (hK : ∀ s ∈ K, cleanSeg s = true)
    (hK0 : ∀ s ∈ K, segKind s = 0) (mw : List Handler) :
    getValue (routeTable (absPath K) mw) "POST" (absPath K ++ "/v1/projects".toList) =
      some ⟨"POST", absPath K ++ "/v1/projects".toList,
        mw ++ [Handler.LoginRequired, Handler.CreateProject]⟩ := by
  have hs := cleanSeg_noSlash hK
  simp [getValue, lookupStep, routeTable, splitPath_absPath_append K hs, matchSegs_pre K hK0, prefer_pre,
    splitPath, matchSegs, segKind, prefer]

theorem lookup_keep (m : String) (path : List Char) (r0 : RouteInfo) (L : List RouteInfo)
    (hall : ∀ r ∈ L, r.Method = m ∧ matchSegs (splitPath r.Path) (splitPath path) = true →
      r = r0 ∨ prefer (splitPath r.Path) (splitPath r0.Path) = false) :
    L.foldl (lookupStep m path) (some r0) = some r0 := by
  induction L with
  | nil => rfl
  | cons r L ih =>
    have hstep : lookupStep m path (some r0) r = some r0 := by
      unfold lookupStep
      by_cases hM : r.Method = m ∧ matchSegs (splitPath r.Path) (splitPath path) = true
      · rw [if_pos hM]
        rcases hall r (by simp) hM with h | h
        · subst h; simp
        · simp [h]
      · rw [if_neg hM]
    rw [List.foldl_cons, hstep]
    exact ih (fun t ht => hall t (by simp [ht]))

theorem lookup_reach (m : String) (path : List Char) (r0 : RouteInfo)
    (hm0 : r0.Method = m ∧ matchSegs (splitPath r0.Path) (splitPath path) = true)
    (L : List RouteInfo) :
    ∀ acc : Option RouteInfo,
      (∀ b, acc = some b → b = r0 ∨ prefer (splitPath r0.Path) (splitPath b.Path) = true) →
      r0 ∈ L →
      (∀ r ∈ L, r.Method = m ∧ matchSegs (splitPath r.Path) (splitPath path) = true →
        r = r0 ∨ (prefer (splitPath r0.Path) (splitPath r.Path) = true ∧
          prefer (splitPath r.Path) (splitPath r0.Path) = false)) →
      L.foldl (lookupStep m path) acc = some r0 := by
  induction L with
  | nil => intro acc _ h0; simp at h0
  | cons r L ih =>
    intro acc hacc h0 hall
    have hallL : ∀ t ∈ L, t.Method = m ∧ matchSegs (splitPath t.Path) (splitPath path) = true →
        t = r0 ∨ (prefer (splitPath r0.Path) (splitPath t.Path) = true ∧
          prefer (splitPath t.Path) (splitPath r0.Path) = false) :=
      fun t ht => hall t (by simp [ht])
    rw [List.foldl_cons]
    by_cases hr : r = r0
    · subst hr
      have hstep : lookupStep m path acc r = some r := by
        unfold lookupStep
        rw [if_pos hm0]
        cases acc with
        | none => rfl
        | some b =>
          rcases hacc b rfl with h | h
          · subst h; simp
          · simp [h]
      rw [hstep]
      exact lookup_keep m path r L (fun t ht hM => by
        rcases hallL t ht hM with h | h
        · exact Or.inl h
        · exact Or.inr h.2)
    · have h0L : r0 ∈ L := by
        rcases List.mem_cons.1 h0 with h | h
        · exact absurd h.symm hr
        · exact h
      apply ih _ _ h0L hallL
      intro b hb
      unfold lookupStep at hb
      by_cases hM : r.Method = m ∧ matchSegs (splitPath r.Path) (splitPath path) = true
      · rw [if_pos hM] at hb
        have hworse : prefer (splitPath r0.Path) (splitPath r.Path) = true := by
          rcases hall r (by simp) hM with h | h
          · exact absurd h hr
          · exact h.1
        cases acc with
        | none =>
          simp only [Option.some.injEq] at hb
          subst hb
          exact Or.inr hworse
        | some c =>
          simp only at hb
          split_ifs at hb
          · simp only [Option.some.injEq] at hb
            subst hb
            exact Or.inr hworse
          · simp only [Option.some.injEq] at hb
            subst hb
            exact hacc c rfl
      · rw [if_neg hM] at hb
        exact hacc b hb

/-- A matching route that gin tries before every other matching route is the
result of the lookup, in whatever order the routes are held. -/
theorem getValue_best (L : List RouteInfo) (m : String) (path : List Char) (r0 : RouteInfo)
    (h0 : r0 ∈ L)
    (hm0 : r0.Method = m ∧ matchSegs (splitPath r0.Path) (splitPath path) = true)
    (hall : ∀ r ∈ L, r.Method = m ∧ matchSegs (splitPath r.Path) (splitPath path) = true →
      r = r0 ∨ (prefer (splitPath r0.Path) (splitPath r.Path) = true ∧
        prefer (splitPath r.Path) (splitPath r0.Path) = false)) :
    getValue L m path = some r0 :=
  lookup_reach m path r0 hm0 L none (fun b hb => by simp at hb) h0 hall

theorem getValue_received_any (K : List (List Char)) (hK : ∀ s ∈ K, cleanSeg s = true)
    (hK0 : ∀ s ∈ K, segKind s = 0) (mw : List Handler) (trees : List RouteInfo)
    (hmem : ∀ r, r ∈ trees ↔ r ∈ routeTable (absPath K) mw) :
    getValue trees "GET" (absPath K ++ "/v1/projects/received".toList) =
      some ⟨"GET", absPath K ++ "/v1/projects/received".toList,
        mw ++ [Handler.LoginRequired, Handler.ListReceiveHistory]⟩ := by
  have hs := cleanSeg_noSlash hK
  apply getValue_best
  · rw [hmem]; simp [routeTable]
  · simp [splitPath_absPath_append K hs, matchSegs_pre K hK0, splitPath, matchSegs, segKind]
  · intro r hr
    rw [hmem] at hr
    simp only [routeTable, List.mem_cons, List.mem_singleton, List.not_mem_nil, or_false] at hr
    rcases hr with rfl | rfl | rfl | rfl | rfl | rfl | rfl | rfl | rfl | rfl | rfl | rfl | rfl <;>
      simp [splitPath_absPath_append K hs, matchSegs_pre K hK0, prefer_pre, splitPath,
        matchSegs, segKind, prefer]

theorem getValue_id_any (K : List (List Char)) (hK : ∀ s ∈ K, cleanSeg s = true)
    (hK0 : ∀ s ∈ K, segKind s = 0) (mw : List Handler) (x : List Char)
    (hx1 : x ≠ []) (hx2 : '/' ∉ x) (hx3 : x ≠ "received".toList) (trees : List RouteInfo)
    (hmem : ∀ r, r ∈ trees ↔ r ∈ routeTable (absPath K) mw) :
    getValue trees "GET" (absPath K ++ "/v1/projects/".toList ++ x) =
      some ⟨"GET", absPath K ++ "/v1/projects/:id".toList,
        mw ++ [Handler.LoginRequired, Handler.GetProject]⟩ := by
  have hs := cleanSeg_noSlash hK
  have hx3' : ¬ ['r', 'e', 'c', 'e', 'i', 'v', 'e', 'd'] = x := fun h => hx3 (by simp [← h])
  apply getValue_best
  · rw [hmem]; simp [routeTable]
  · simp [splitPath_absPath_append K hs, matchSegs_pre K hK0, splitPath,
      splitPath_noSlash x hx2, matchSegs, segKind, hx1]
  · intro r hr
    rw [hmem] at hr
    simp only [routeTable, List.mem_cons, List.mem_singleton, List.not_mem_nil, or_false] at hr
    rcases hr with rfl | rfl | rfl | rfl | rfl | rfl | rfl | rfl | rfl | rfl | rfl | rfl | rfl <;>
      simp [splitPath_absPath_append K hs, matchSegs_pre K hK0, prefer_pre, splitPath,
        splitPath_noSlash x hx2, matchSegs, segKind, prefer, hx1, hx3']

theorem effectivePrefix_of_clean (p : List Char) (hp : cleanPrefix p) :
    effectivePrefix p = p := by
  rcases hp with h | ⟨hhead, hne, hclean⟩
  · subst h
    simp [effectivePrefix, prefixSegs, splitPath, cleanStep, absPath]
  · have hp0 : p ≠ [] := by
      intro h; subst h; simp at hhead
    unfold Clean at hclean
    simp only [hp0, if_false, hhead, decide_True, if_true] at hclean
    have hK : prefixSegs p ≠ [] := by
      intro hK
      unfold prefixSegs at hK
      rw [hK] at hclean
      exact hne (by simpa [joinSegs] using hclean.symm)
    unfold effectivePrefix
    rw [← slash_joinSegs _ hK]
    exact hclean

theorem route_paths_effective {cfg : Config} {env : Env} {e : Engine}
    (h : Serve cfg env = .ok e) :
    e.trees.map (fun r => r.Path) =
      (effectivePrefix cfg.App.APIPrefix.toList ++ "/swagger/*any".toList) ::
        v1RelativePaths.map
          (fun rel => effectivePrefix cfg.App.APIPrefix.toList ++ "/v1".toList ++ rel) := by
  rw [(Serve_trees h).1]
  simp [routeTable, v1RelativePaths]

theorem gated_chain (mw after : List Handler) (fin : Handler)
    (hmw : ∀ x ∈ mw, x.isPermission = false ∧ x ≠ fin)
    (hfin : fin ≠ Handler.LoginRequired) (aborts : Handler → Bool)
    (ha : aborts Handler.LoginRequired = true) :
    fin ∉ runChain aborts (mw ++ [Handler.LoginRequired] ++ after ++ [fin]) ∧
      ∀ x ∈ runChain aborts (mw ++ [Handler.LoginRequired] ++ after ++ [fin]),
        x.isPermission = false := by
  have hstop := runChain_stops aborts Handler.LoginRequired ha mw (after ++ [fin])
  have hassoc : mw ++ [Handler.LoginRequired] ++ after ++ [fin] =
      mw ++ Handler.LoginRequired :: (after ++ [fin]) := by simp
  rw [hassoc]
  constructor
  · intro hf
    rcases hstop fin hf with h | h
    · exact (hmw fin h).2 rfl
    · exact hfin h
  · intro x hx
    rcases hstop x hx with h | h
    · exact (hmw x h).1
    · subst h; rfl

theorem engineChain_plain (cfg : Config) (fin : Handler) (hfin : fin.isMiddleware = false) :
    ∀ x ∈ engineChain cfg, x.isPermission = false ∧ x ≠ fin := by
  intro x hx
  simp only [engineChain, List.mem_cons, List.mem_singleton, List.not_mem_nil, or_false] at hx
  rcases hx with h | h | h | h <;> subst h <;> refine ⟨rfl, ?_⟩ <;> intro h <;> subst h <;>
    simp [Handler.isMiddleware] at hfin

theorem runChain_all (aborts : Handler → Bool) (chain : List Handler)
    (hc : ∀ x ∈ chain, aborts x = false) : runChain aborts chain = chain := by
  induction chain with
  | nil => rfl
  | cons a chain ih =>
    simp only [runChain, hc a (by simp), Bool.false_eq_true, if_false]
    rw [ih (fun x hx => hc x (by simp [hx]))]

theorem anonymous_reaches (aborts : Handler → Bool)
    (ha : ∀ x, aborts x = true → x = Handler.LoginRequired) (chain : List Handler)
    (fin : Handler) (hc : Handler.LoginRequired ∉ chain ++ [fin]) :
    fin ∈ runChain aborts (chain ++ [fin]) := by
  rw [runChain_all]
  · simp
  · intro x hx
    have hne : x ≠ Handler.LoginRequired := by
      intro hx2; subst hx2; exact hc hx
    cases hax : aborts x with
    | false => rfl
    | true => exact absurd (ha x hax) hne

theorem head_effectivePrefix_append (p lit : List Char) (hl : lit.head? = some '/') :
    (effectivePrefix p ++ lit).head? = some '/' := by
  unfold effectivePrefix
  cases prefixSegs p with
  | nil => simpa [absPath] using hl
  | cons s K => simp [absPath]

/-- Every registration of `Serve` meets what gin's `addRoute` and
`combineHandlers` assert: the path starts with a slash, the method is not empty,
the chain is not empty and has fewer than 63 entries. -/
theorem Serve_addRoute_asserts {cfg : Config} {env : Env} {e : Engine}
    (h : Serve cfg env = .ok e) :
    ∀ r ∈ e.trees, r.Path.head? = some '/' ∧ r.Method ≠ "" ∧ r.Handlers ≠ [] ∧
      r.Handlers.length < 63 := by
  rw [(Serve_trees h).1]
  intro r hr
  simp only [routeTable, List.mem_cons, List.mem_singleton, List.not_mem_nil, or_false] at hr
  rcases hr with rfl | rfl | rfl | rfl | rfl | rfl | rfl | rfl | rfl | rfl | rfl | rfl | rfl <;>
    exact ⟨head_effectivePrefix_append _ _ rfl, by simp, by simp [engineChain],
      by simp [engineChain]⟩

/-! ## The claims -/


/-- C1: every route under projectRouter or tagRouter has oauth.LoginRequired in
its chain strictly before its final handler (the last element, an endpoint); and
when chain execution stops at the first aborting handler, on every request on
which LoginRequired aborts neither that final handler nor any permission
middleware is executed. -/
theorem protected_routes_login_first (cfg : Config) (env : Env) (e : Engine)
    (h : Serve cfg env = .ok e) :
    ∀ r ∈ e.trees, underProtectedGroup cfg r = true →
      ∃ before after fin,
        r.Handlers = before ++ [Handler.LoginRequired] ++ after ++ [fin] ∧
        fin.isMiddleware = false ∧
        ∀ aborts : Handler → Bool, aborts Handler.LoginRequired = true →
          fin ∉ runChain aborts r.Handlers ∧
            ∀ x ∈ runChain aborts r.Handlers, x.isPermission = false := by
  intro r hr hu
  have hmem : r ∈ e.trees.filter (underProtectedGroup cfg) := List.mem_filter.2 ⟨hr, hu⟩
  rw [protected_filter h] at hmem
  simp only [List.mem_cons, List.mem_singleton, List.not_mem_nil, or_false] at hmem
  rcases hmem with rfl | rfl | rfl | rfl | rfl | rfl | rfl
  · exact ⟨engineChain cfg, [], Handler.CreateProject, rfl, rfl, fun aborts ha =>
      gated_chain (engineChain cfg) [] Handler.CreateProject
        (engineChain_plain cfg Handler.CreateProject rfl) (by simp) aborts ha⟩
  · exact ⟨engineChain cfg, [Handler.ProjectCreatorPermMiddleware], Handler.UpdateProject,
      rfl, rfl, fun aborts ha =>
      gated_chain (engineChain cfg) [Handler.ProjectCreatorPermMiddleware] Handler.UpdateProject
        (engineChain_plain cfg Handler.UpdateProject rfl) (by simp) aborts ha⟩
  · exact ⟨engineChain cfg, [Handler.ProjectCreatorPermMiddleware], Handler.DeleteProject,
      rfl, rfl, fun aborts ha =>
      gated_chain (engineChain cfg) [Handler.ProjectCreatorPermMiddleware] Handler.DeleteProject
        (engineChain_plain cfg Handler.DeleteProject rfl) (by simp) aborts ha⟩
  · exact ⟨engineChain cfg, [Handler.ReceiveProjectMiddleware], Handler.ReceiveProject,
      rfl, rfl, fun aborts ha =>
      gated_chain (engineChain cfg) [Handler.ReceiveProjectMiddleware] Handler.ReceiveProject
        (engineChain_plain cfg Handler.ReceiveProject rfl) (by simp) aborts ha⟩
  · exact ⟨engineChain cfg, [], Handler.ListReceiveHistory, rfl, rfl, fun aborts ha =>
      gated_chain (engineChain cfg) [] Handler.ListReceiveHistory
        (engineChain_plain cfg Handler.ListReceiveHistory rfl) (by simp) aborts ha⟩
  · exact ⟨engineChain cfg, [], Handler.GetProject, rfl, rfl, fun aborts ha =>
      gated_chain (engineChain cfg) [] Handler.GetProject
        (engineChain_plain cfg Handler.GetProject rfl) (by simp) aborts ha⟩
  · exact ⟨engineChain cfg, [], Handler.ListTags, rfl, rfl, fun aborts ha =>
      gated_chain (engineChain cfg) [] Handler.ListTags
        (engineChain_plain cfg Handler.ListTags rfl) (by simp) aborts ha⟩

/-- Witness for C1 at the sample configuration. -/
theorem protected_routes_login_first_witness :
    Serve demoConfig okEnv = .ok demoEngine ∧
    ∀ r ∈ demoEngine.trees, underProtectedGroup demoConfig r = true →
      ∃ before after fin,
        r.Handlers = before ++ [Handler.LoginRequired] ++ after ++ [fin] ∧
        fin.isMiddleware = false ∧
        ∀ aborts : Handler → Bool, aborts Handler.LoginRequired = true →
          fin ∉ runChain aborts r.Handlers ∧
            ∀ x ∈ runChain aborts r.Handlers, x.isPermission = false :=
  ⟨rfl, protected_routes_login_first demoConfig okEnv demoEngine rfl⟩

/-- C2: in the route table built by Serve a route carries
project.ProjectCreatorPermMiddleware exactly when it is PUT or DELETE
/projects/:id, and project.ReceiveProjectMiddleware exactly when it is POST
/projects/:id/receive (all three routes are registered); so every other
registered route carries no resource-permission middleware. -/
theorem permission_middleware_routes (cfg : Config) (env : Env) (e : Engine)
    (h : Serve cfg env = .ok e) :
    (∀ r ∈ e.trees,
      (Handler.ProjectCreatorPermMiddleware ∈ r.Handlers ↔
        (r.Method = "PUT" ∨ r.Method = "DELETE") ∧
          r.Path = apiV1Path cfg ++ "/projects/:id".toList) ∧
      (Handler.ReceiveProjectMiddleware ∈ r.Handlers ↔
        r.Method = "POST" ∧ r.Path = apiV1Path cfg ++ "/projects/:id/receive".toList)) ∧
    (∃ r ∈ e.trees, r.Method = "PUT" ∧ r.Path = apiV1Path cfg ++ "/projects/:id".toList) ∧
    (∃ r ∈ e.trees, r.Method = "DELETE" ∧ r.Path = apiV1Path cfg ++ "/projects/:id".toList) ∧
    (∃ r ∈ e.trees, r.Method = "POST" ∧
      r.Path = apiV1Path cfg ++ "/projects/:id/receive".toList) := by
  rw [(Serve_trees h).1, apiV1Path_eq]
  refine ⟨?_, ?_, ?_, ?_⟩
  · intro r hr
    simp only [routeTable, List.mem_cons, List.mem_singleton, List.not_mem_nil, or_false] at hr
    rcases hr with rfl | rfl | rfl | rfl | rfl | rfl | rfl | rfl | rfl | rfl | rfl | rfl | rfl <;>
      simp [engineChain]
  · exact ⟨⟨"PUT", effectivePrefix cfg.App.APIPrefix.toList ++ "/v1/projects/:id".toList,
      engineChain cfg ++ [Handler.LoginRequired, Handler.ProjectCreatorPermMiddleware,
        Handler.UpdateProject]⟩, by simp [routeTable], rfl, by simp⟩
  · exact ⟨⟨"DELETE", effectivePrefix cfg.App.APIPrefix.toList ++ "/v1/projects/:id".toList,
      engineChain cfg ++ [Handler.LoginRequired, Handler.ProjectCreatorPermMiddleware,
        Handler.DeleteProject]⟩, by simp [routeTable], rfl, by simp⟩
  · exact ⟨⟨"POST", effectivePrefix cfg.App.APIPrefix.toList ++
      "/v1/projects/:id/receive".toList,
      engineChain cfg ++ [Handler.LoginRequired, Handler.ReceiveProjectMiddleware,
        Handler.ReceiveProject]⟩, by simp [routeTable], rfl, by simp⟩

/-- Witness for C2 at the sample configuration. -/
theorem permission_middleware_routes_witness :
    Serve demoConfig okEnv = .ok demoEngine ∧
    ((∀ r ∈ demoEngine.trees,
      (Handler.ProjectCreatorPermMiddleware ∈ r.Handlers ↔
        (r.Method = "PUT" ∨ r.Method = "DELETE") ∧
          r.Path = apiV1Path demoConfig ++ "/projects/:id".toList) ∧
      (Handler.ReceiveProjectMiddleware ∈ r.Handlers ↔
        r.Method = "POST" ∧
          r.Path = apiV1Path demoConfig ++ "/projects/:id/receive".toList)) ∧
    (∃ r ∈ demoEngine.trees, r.Method = "PUT" ∧
      r.Path = apiV1Path demoConfig ++ "/projects/:id".toList) ∧
    (∃ r ∈ demoEngine.trees, r.Method = "DELETE" ∧
      r.Path = apiV1Path demoConfig ++ "/projects/:id".toList) ∧
    (∃ r ∈ demoEngine.trees, r.Method = "POST" ∧
      r.Path = apiV1Path demoConfig ++ "/projects/:id/receive".toList)) :=
  ⟨rfl, permission_middleware_routes demoConfig okEnv demoEngine rfl⟩

/-- C3: every registered route whose chain contains a resource-permission
middleware has the chain: engine-level middlewares, then oauth.LoginRequired,
then the permission middleware, then the endpoint handler as last element; so
LoginRequired comes before the permission middleware, which comes before the
final handler, and no route has a permission middleware without LoginRequired
ahead of it. -/
theorem permission_chain_order (cfg : Config) (env : Env) (e : Engine)
    (h : Serve cfg env = .ok e) :
    ∀ r ∈ e.trees, ∀ perm ∈ r.Handlers, perm.isPermission = true →
      (∃ before fin,
        r.Handlers = before ++ [Handler.LoginRequired, perm, fin] ∧
        Handler.LoginRequired ∉ before ∧ perm ∉ before ∧ fin.isMiddleware = false) ∧
      r.Handlers.indexOf Handler.LoginRequired < r.Handlers.indexOf perm ∧
      r.Handlers.indexOf perm < r.Handlers.length - 1 ∧
      (r.Handlers.getLast?).map Handler.isMiddleware = some false := by
  rw [(Serve_trees h).1]
  intro r hr perm hperm hp
  have hcases : perm = Handler.ProjectCreatorPermMiddleware ∨
      perm = Handler.ReceiveProjectMiddleware := by
    cases perm <;> simp [Handler.isPermission] at hp ⊢
  simp only [routeTable, List.mem_cons, List.mem_singleton, List.not_mem_nil, or_false] at hr
  rcases hr with rfl | rfl | rfl | rfl | rfl | rfl | rfl | rfl | rfl | rfl | rfl | rfl | rfl <;>
    rcases hcases with rfl | rfl <;>
    simp [engineChain] at hperm
  · refine ⟨⟨engineChain cfg, Handler.UpdateProject, rfl, ?_, ?_, rfl⟩, ?_⟩
    · simp [engineChain]
    · simp [engineChain]
    · simp [engineChain, List.indexOf_cons, Handler.isMiddleware]
  · refine ⟨⟨engineChain cfg, Handler.DeleteProject, rfl, ?_, ?_, rfl⟩, ?_⟩
    · simp [engineChain]
    · simp [engineChain]
    · simp [engineChain, List.indexOf_cons, Handler.isMiddleware]
  · refine ⟨⟨engineChain cfg, Handler.ReceiveProject, rfl, ?_, ?_, rfl⟩, ?_⟩
    · simp [engineChain]
    · simp [engineChain]
    · simp [engineChain, List.indexOf_cons, Handler.isMiddleware]

/-- Witness for C3 at the sample configuration. -/
theorem permission_chain_order_witness :
    Serve demoConfig okEnv = .ok demoEngine ∧
    ∀ r ∈ demoEngine.trees, ∀ perm ∈ r.Handlers, perm.isPermission = true →
      (∃ before fin,
        r.Handlers = before ++ [Handler.LoginRequired, perm, fin] ∧
        Handler.LoginRequired ∉ before ∧ perm ∉ before ∧ fin.isMiddleware = false) ∧
      r.Handlers.indexOf Handler.LoginRequired < r.Handlers.indexOf perm ∧
      r.Handlers.indexOf perm < r.Handlers.length - 1 ∧
      (r.Handlers.getLast?).map Handler.isMiddleware = some false :=
  ⟨rfl, permission_chain_order demoConfig okEnv demoEngine rfl⟩

/-- C4: among the OAuth routes, the routes at /oauth/logout and /oauth/user-info
are GET routes whose chain has oauth.LoginRequired directly before the handler
(oauth.Logout, oauth.UserInfo); the route at /oauth/login is a GET route ending in
oauth.GetLoginURL and the route at /oauth/callback is a POST route ending in
oauth.Callback, neither chain contains LoginRequired, and when only LoginRequired
can abort (an anonymous caller) their handlers run. -/
theorem oauth_routes_login (cfg : Config) (env : Env) (e : Engine)
    (h : Serve cfg env = .ok e) :
    (∃ r ∈ e.trees, r.Path = apiV1Path cfg ++ "/oauth/logout".toList) ∧
    (∃ r ∈ e.trees, r.Path = apiV1Path cfg ++ "/oauth/user-info".toList) ∧
    (∃ r ∈ e.trees, r.Path = apiV1Path cfg ++ "/oauth/login".toList) ∧
    (∃ r ∈ e.trees, r.Path = apiV1Path cfg ++ "/oauth/callback".toList) ∧
    ∀ r ∈ e.trees,
      (r.Path = apiV1Path cfg ++ "/oauth/logout".toList →
        r.Method = "GET" ∧
        ∃ before, r.Handlers = before ++ [Handler.LoginRequired, Handler.Logout]) ∧
      (r.Path = apiV1Path cfg ++ "/oauth/user-info".toList →
        r.Method = "GET" ∧
        ∃ before, r.Handlers = before ++ [Handler.LoginRequired, Handler.UserInfo]) ∧
      (r.Path = apiV1Path cfg ++ "/oauth/login".toList →
        r.Method = "GET" ∧ r.Handlers.getLast? = some Handler.GetLoginURL ∧
        Handler.LoginRequired ∉ r.Handlers ∧
        ∀ aborts : Handler → Bool, (∀ x, aborts x = true → x = Handler.LoginRequired) →
          Handler.GetLoginURL ∈ runChain aborts r.Handlers) ∧
      (r.Path = apiV1Path cfg ++ "/oauth/callback".toList →
        r.Method = "POST" ∧ r.Handlers.getLast? = some Handler.Callback ∧
        Handler.LoginRequired ∉ r.Handlers ∧
        ∀ aborts : Handler → Bool, (∀ x, aborts x = true → x = Handler.LoginRequired) →
          Handler.Callback ∈ runChain aborts r.Handlers) := by
  rw [(Serve_trees h).1, apiV1Path_eq]
  refine ⟨?_, ?_, ?_, ?_, ?_⟩
  · exact ⟨⟨"GET", effectivePrefix cfg.App.APIPrefix.toList ++ "/v1/oauth/logout".toList,
      engineChain cfg ++ [Handler.LoginRequired, Handler.Logout]⟩, by simp [routeTable],
      by simp⟩
  · exact ⟨⟨"GET", effectivePrefix cfg.App.APIPrefix.toList ++ "/v1/oauth/user-info".toList,
      engineChain cfg ++ [Handler.LoginRequired, Handler.UserInfo]⟩, by simp [routeTable],
      by simp⟩
  · exact ⟨⟨"GET", effectivePrefix cfg.App.APIPrefix.toList ++ "/v1/oauth/login".toList,
      engineChain cfg ++ [Handler.GetLoginURL]⟩, by simp [routeTable], by simp⟩
  · exact ⟨⟨"POST", effectivePrefix cfg.App.APIPrefix.toList ++ "/v1/oauth/callback".toList,
      engineChain cfg ++ [Handler.Callback]⟩, by simp [routeTable], by simp⟩
  · intro r hr
    simp only [routeTable, List.mem_cons, List.mem_singleton, List.not_mem_nil, or_false] at hr
    rcases hr with rfl | rfl | rfl | rfl | rfl | rfl | rfl | rfl | rfl | rfl | rfl | rfl | rfl <;>
      simp [engineChain]
    · intro aborts ha
      exact anonymous_reaches aborts ha
        [Handler.Recovery, Handler.Sessions cfg.App.SessionCookieName (sessionStoreOf cfg),
          Handler.Middleware cfg.App.AppName, Handler.loggerMiddleware]
        Handler.GetLoginURL (by simp)
    · exact ⟨engineChain cfg, by simp [engineChain]⟩
    · intro aborts ha
      exact anonymous_reaches aborts ha
        [Handler.Recovery, Handler.Sessions cfg.App.SessionCookieName (sessionStoreOf cfg),
          Handler.Middleware cfg.App.AppName, Handler.loggerMiddleware]
        Handler.Callback (by simp)
    · exact ⟨engineChain cfg, by simp [engineChain]⟩

/-- Witness for C4 at the sample configuration. -/
theorem oauth_routes_login_witness :
    Serve demoConfig okEnv = .ok demoEngine ∧
    (∃ r ∈ demoEngine.trees, r.Path = apiV1Path demoConfig ++ "/oauth/login".toList) ∧
    (∃ r ∈ demoEngine.trees, r.Path = apiV1Path demoConfig ++ "/oauth/logout".toList) :=
  have hw := oauth_routes_login demoConfig okEnv demoEngine rfl
  ⟨rfl, hw.2.2.1, hw.1⟩

/-- C5: the routes registered under projectRouter and tagRouter are exactly
seven, in this order: POST /projects -> CreateProject, PUT /projects/:id ->
UpdateProject, DELETE /projects/:id -> DeleteProject, POST /projects/:id/receive
-> ReceiveProject, GET /projects/received -> ListReceiveHistory, GET
/projects/:id -> GetProject (the registration of line 87), GET /tags -> ListTags. -/
theorem protected_route_set (cfg : Config) (env : Env) (e : Engine)
    (h : Serve cfg env = .ok e) :
    (e.trees.filter (underProtectedGroup cfg)).map
        (fun r => (r.Method, r.Path, r.Handlers.getLast?)) =
      [ ("POST", apiV1Path cfg ++ "/projects".toList, some Handler.CreateProject),
        ("PUT", apiV1Path cfg ++ "/projects/:id".toList, some Handler.UpdateProject),
        ("DELETE", apiV1Path cfg ++ "/projects/:id".toList, some Handler.DeleteProject),
        ("POST", apiV1Path cfg ++ "/projects/:id/receive".toList,
          some Handler.ReceiveProject),
        ("GET", apiV1Path cfg ++ "/projects/received".toList,
          some Handler.ListReceiveHistory),
        ("GET", apiV1Path cfg ++ "/projects/:id".toList, some Handler.GetProject),
        ("GET", apiV1Path cfg ++ "/tags".toList, some Handler.ListTags) ] := by
  rw [protected_filter h]
  simp [projectRouterPath_eq, tagRouterPath_eq, apiV1Path_eq, engineChain]

/-- Witness for C5 at the sample configuration. -/
theorem protected_route_set_witness :
    Serve demoConfig okEnv = .ok demoEngine ∧
    (demoEngine.trees.filter (underProtectedGroup demoConfig)).map
        (fun r => (r.Method, r.Path, r.Handlers.getLast?)) =
      [ ("POST", apiV1Path demoConfig ++ "/projects".toList, some Handler.CreateProject),
        ("PUT", apiV1Path demoConfig ++ "/projects/:id".toList, some Handler.UpdateProject),
        ("DELETE", apiV1Path demoConfig ++ "/projects/:id".toList,
          some Handler.DeleteProject),
        ("POST", apiV1Path demoConfig ++ "/projects/:id/receive".toList,
          some Handler.ReceiveProject),
        ("GET", apiV1Path demoConfig ++ "/projects/received".toList,
          some Handler.ListReceiveHistory),
        ("GET", apiV1Path demoConfig ++ "/projects/:id".toList, some Handler.GetProject),
        ("GET", apiV1Path demoConfig ++ "/tags".toList, some Handler.ListTags) ] :=
  ⟨rfl, protected_route_set demoConfig okEnv demoEngine rfl⟩

/-- C9: every registered route's chain begins with the engine-level middlewares
in the order Recovery, Sessions, otelgin tracing, logger, followed by at least
one group- or route-level entry; so wherever oauth.LoginRequired occurs, the
Sessions middleware occurs strictly before it. -/
theorem engine_middlewares_first (cfg : Config) (env : Env) (e : Engine)
    (h : Serve cfg env = .ok e) :
    ∃ store : Store, ∀ r ∈ e.trees,
      (∃ rest, rest ≠ [] ∧
        r.Handlers =
          [Handler.Recovery, Handler.Sessions cfg.App.SessionCookieName store,
           Handler.Middleware cfg.App.AppName, Handler.loggerMiddleware] ++ rest) ∧
      (Handler.LoginRequired ∈ r.Handlers →
        r.Handlers.indexOf (Handler.Sessions cfg.App.SessionCookieName store) <
          r.Handlers.indexOf Handler.LoginRequired) := by
  refine ⟨sessionStoreOf cfg, ?_⟩
  rw [(Serve_trees h).1]
  intro r hr
  simp only [routeTable, List.mem_cons, List.mem_singleton, List.not_mem_nil, or_false] at hr
  rcases hr with rfl | rfl | rfl | rfl | rfl | rfl | rfl | rfl | rfl | rfl | rfl | rfl | rfl <;>
    simp [engineChain, List.indexOf_cons]

/-- Witness for C9 at the sample configuration. -/
theorem engine_middlewares_first_witness :
    Serve demoConfig okEnv = .ok demoEngine ∧
    ∃ store : Store, ∀ r ∈ demoEngine.trees,
      (∃ rest, rest ≠ [] ∧
        r.Handlers =
          [Handler.Recovery, Handler.Sessions demoConfig.App.SessionCookieName store,
           Handler.Middleware demoConfig.App.AppName, Handler.loggerMiddleware] ++ rest) ∧
      (Handler.LoginRequired ∈ r.Handlers →
        r.Handlers.indexOf (Handler.Sessions demoConfig.App.SessionCookieName store) <
          r.Handlers.indexOf Handler.LoginRequired) :=
  ⟨rfl, engine_middlewares_first demoConfig okEnv demoEngine rfl⟩

/-- C8, as amended: the cookie name and the cookie options Domain, MaxAge,
HttpOnly and Secure of the session middleware are the configured values, and the
cookie Path is the constant "/" for every configuration; every route's chain
carries that same session middleware. -/
theorem session_cookie_options (cfg : Config) (env : Env) (e : Engine)
    (h : Serve cfg env = .ok e) :
    sessionCookie e.rootGroup.Handlers =
        some (cfg.App.SessionCookieName,
          { Path := "/", Domain := cfg.App.SessionDomain, MaxAge := cfg.App.SessionAge,
            HttpOnly := cfg.App.SessionHttpOnly, Secure := cfg.App.SessionSecure }) ∧
    ∀ r ∈ e.trees, sessionCookie r.Handlers = sessionCookie e.rootGroup.Handlers := by
  rw [(Serve_trees h).1, (Serve_trees h).2]
  refine ⟨by simp [engineChain, sessionCookie, sessionStoreOf], ?_⟩
  intro r hr
  simp only [routeTable, List.mem_cons, List.mem_singleton, List.not_mem_nil, or_false] at hr
  rcases hr with rfl | rfl | rfl | rfl | rfl | rfl | rfl | rfl | rfl | rfl | rfl | rfl | rfl <;>
    simp [engineChain, sessionCookie]

/-- Witness for the amended C8 at the sample configuration. -/
theorem session_cookie_options_witness :
    Serve demoConfig okEnv = .ok demoEngine ∧
    sessionCookie demoEngine.rootGroup.Handlers =
      some ("cdk_session",
        { Path := "/", Domain := "cdk.example", MaxAge := 86400,
          HttpOnly := true, Secure := false }) :=
  ⟨rfl, (session_cookie_options demoConfig okEnv demoEngine rfl).1⟩

/-- C8, counterexample: two configurations that differ in every field install the
same cookie Path, "/"; the Path does not vary with the configuration. -/
theorem session_cookie_path_constant :
    ∃ e1 e2, Serve demoConfig okEnv = .ok e1 ∧ Serve otherConfig okEnv = .ok e2 ∧
      (sessionCookie e1.rootGroup.Handlers).map (fun c => c.2.Path) = some "/" ∧
      (sessionCookie e2.rootGroup.Handlers).map (fun c => c.2.Path) = some "/" ∧
      demoConfig.App.Env ≠ otherConfig.App.Env ∧
      demoConfig.App.AppName ≠ otherConfig.App.AppName ∧
      demoConfig.App.Addr ≠ otherConfig.App.Addr ∧
      demoConfig.App.APIPrefix ≠ otherConfig.App.APIPrefix ∧
      demoConfig.App.SessionSecret ≠ otherConfig.App.SessionSecret ∧
      demoConfig.App.SessionCookieName ≠ otherConfig.App.SessionCookieName ∧
      demoConfig.App.SessionDomain ≠ otherConfig.App.SessionDomain ∧
      demoConfig.App.SessionAge ≠ otherConfig.App.SessionAge ∧
      demoConfig.App.SessionHttpOnly ≠ otherConfig.App.SessionHttpOnly ∧
      demoConfig.App.SessionSecure ≠ otherConfig.App.SessionSecure ∧
      demoConfig.Redis.Host ≠ otherConfig.Redis.Host ∧
      demoConfig.Redis.Port ≠ otherConfig.Redis.Port ∧
      demoConfig.Redis.Username ≠ otherConfig.Redis.Username ∧
      demoConfig.Redis.Password ≠ otherConfig.Redis.Password ∧
      demoConfig.Redis.DB ≠ otherConfig.Redis.DB ∧
      demoConfig.Redis.MinIdleConn ≠ otherConfig.Redis.MinIdleConn := by
  obtain ⟨e2, h2⟩ := Serve_total otherConfig okEnv rfl rfl
  refine ⟨demoEngine, e2, rfl, h2, ?_, ?_, ?_⟩
  · decide
  · rw [(Serve_trees h2).2]; decide
  · decide

/-- C7, as amended: for every configuration whose App.APIPrefix is empty or is a
rooted path other than "/" that path.Clean leaves unchanged, the full path of
every registered route begins with that prefix, the swagger route is the prefix
followed by "/swagger/*any", and every other route is the prefix followed by
"/v1" followed by the route's relative path. -/
theorem clean_prefix_route_paths (cfg : Config) (env : Env) (e : Engine)
    (h : Serve cfg env = .ok e) (hp : cleanPrefix cfg.App.APIPrefix.toList) :
    (∀ r ∈ e.trees, cfg.App.APIPrefix.toList <+: r.Path) ∧
    e.trees.map (fun r => r.Path) =
      (cfg.App.APIPrefix.toList ++ "/swagger/*any".toList) ::
        v1RelativePaths.map (fun rel => cfg.App.APIPrefix.toList ++ "/v1".toList ++ rel) := by
  have hpaths := route_paths_effective h
  rw [effectivePrefix_of_clean _ hp] at hpaths
  refine ⟨?_, hpaths⟩
  intro r hr
  have hmem : r.Path ∈ e.trees.map (fun r => r.Path) := List.mem_map.2 ⟨r, hr, rfl⟩
  rw [hpaths] at hmem
  rcases List.mem_cons.1 hmem with h1 | h1
  · rw [h1]; exact List.prefix_append _ _
  · obtain ⟨rel, _, hrel⟩ := List.mem_map.1 h1
    rw [← hrel, List.append_assoc]
    exact List.prefix_append _ _

/-- Witness for the amended C7 at the sample configuration (prefix "/api"). -/
theorem clean_prefix_route_paths_witness :
    Serve demoConfig okEnv = .ok demoEngine ∧
    cleanPrefix demoConfig.App.APIPrefix.toList ∧
    demoEngine.trees.map (fun r => r.Path) =
      ("/api".toList ++ "/swagger/*any".toList) ::
        v1RelativePaths.map (fun rel => "/api".toList ++ "/v1".toList ++ rel) :=
  ⟨rfl, Or.inr ⟨rfl, by decide, rfl⟩,
    (clean_prefix_route_paths demoConfig okEnv demoEngine rfl
      (Or.inr ⟨rfl, by decide, rfl⟩)).2⟩

/-- C7, counterexample: with App.APIPrefix = "/api/" the health route is
registered at "/api/v1/health", which is not the prefix followed by "/v1" and
"/health"; with App.APIPrefix = "api" a registered route's path does not begin
with the prefix. -/
theorem unclean_prefix_route_paths :
    (∃ e r, Serve otherConfig okEnv = .ok e ∧ r ∈ e.trees ∧
      r.Handlers.getLast? = some Handler.Health ∧ r.Path = "/api/v1/health".toList ∧
      r.Path ≠ otherConfig.App.APIPrefix.toList ++ "/v1".toList ++ "/health".toList) ∧
    (∃ e r, Serve unrootedConfig okEnv = .ok e ∧ r ∈ e.trees ∧
      ¬ unrootedConfig.App.APIPrefix.toList <+: r.Path) := by
  constructor
  · refine ⟨⟨"debug", ⟨engineChain otherConfig, ['/']⟩,
      routeTable "/api".toList (engineChain otherConfig)⟩,
      ⟨"GET", "/api/v1/health".toList, engineChain otherConfig ++ [Handler.Health]⟩,
      rfl, ?_, ?_, rfl, ?_⟩
    · simp [routeTable]
    · simp [engineChain]
    · decide
  · refine ⟨⟨"release", ⟨engineChain unrootedConfig, ['/']⟩,
      routeTable "/api".toList (engineChain unrootedConfig)⟩,
      ⟨"GET", "/api/v1/health".toList, engineChain unrootedConfig ++ [Handler.Health]⟩,
      rfl, ?_, ?_⟩
    · simp [routeTable]
    · decide

/-- C6, as amended: for every configuration whose App.APIPrefix is empty or is a
rooted path other than "/" that path.Clean leaves unchanged, and contains no ':'
or '*': every route Serve registers at the path APIPrefix ++ "/v1/projects" has
method POST; route lookup for method GET at that path finds no route, so such a
request is not answered by the auth gate; and route lookup for method POST at
that path finds the route whose chain is the engine-level middlewares, then
oauth.LoginRequired, then project.CreateProject. -/
theorem get_projects_unrouted (cfg : Config) (env : Env) (e : Engine)
    (h : Serve cfg env = .ok e) (hc : cleanPrefix cfg.App.APIPrefix.toList)
    (hp : ∀ c ∈ cfg.App.APIPrefix.toList, c ≠ ':' ∧ c ≠ '*') :
    (∀ r ∈ e.trees,
      r.Path = cfg.App.APIPrefix.toList ++ "/v1/projects".toList → r.Method = "POST") ∧
    getValue e.trees "GET" (cfg.App.APIPrefix.toList ++ "/v1/projects".toList) = none ∧
    ∃ r, getValue e.trees "POST" (cfg.App.APIPrefix.toList ++ "/v1/projects".toList) = some r ∧
      r.Handlers = e.rootGroup.Handlers ++ [Handler.LoginRequired, Handler.CreateProject] := by
  have hK := prefixSegs_clean cfg.App.APIPrefix.toList
  have hK0 := prefixSegs_literal cfg.App.APIPrefix.toList hp
  have hpe : absPath (prefixSegs cfg.App.APIPrefix.toList) = cfg.App.APIPrefix.toList :=
    effectivePrefix_of_clean _ hc
  have hg := getValue_get_projects _ hK hK0 (engineChain cfg)
  have hpost := getValue_post_projects _ hK hK0 (engineChain cfg)
  have htrees : e.trees = routeTable (absPath (prefixSegs cfg.App.APIPrefix.toList))
      (engineChain cfg) := (Serve_trees h).1
  rw [hpe] at htrees hg hpost
  rw [htrees, (Serve_trees h).2]
  refine ⟨?_, hg, _, hpost, rfl⟩
  intro r hr hpath
  simp only [routeTable, List.mem_cons, List.mem_singleton, List.not_mem_nil, or_false] at hr
  rcases hr with rfl | rfl | rfl | rfl | rfl | rfl | rfl | rfl | rfl | rfl | rfl | rfl | rfl <;>
    simp at hpath ⊢

/-- Witness for the amended C6 at the sample configuration (prefix "/api"). -/
theorem get_projects_unrouted_witness :
    Serve demoConfig okEnv = .ok demoEngine ∧
    cleanPrefix demoConfig.App.APIPrefix.toList ∧
    (∀ c ∈ demoConfig.App.APIPrefix.toList, c ≠ ':' ∧ c ≠ '*') ∧
    getValue demoEngine.trees "GET" "/api/v1/projects".toList = none :=
  ⟨rfl, Or.inr ⟨rfl, by decide, rfl⟩, by decide,
    (get_projects_unrouted demoConfig okEnv demoEngine rfl (Or.inr ⟨rfl, by decide, rfl⟩)
      (by decide)).2.1⟩

/-- C6, counterexample: for the sample configuration (prefix "/api") no GET
route is registered at /api/v1/projects and the lookup of GET /api/v1/projects
finds no route, hence no chain containing oauth.LoginRequired. -/
theorem get_projects_not_gated :
    ∃ e, Serve demoConfig okEnv = .ok e ∧
      (∀ r ∈ e.trees, r.Path = "/api/v1/projects".toList → r.Method ≠ "GET") ∧
      getValue e.trees "GET" "/api/v1/projects".toList = none ∧
      ¬ ∃ r, getValue e.trees "GET" "/api/v1/projects".toList = some r ∧
        Handler.LoginRequired ∈ r.Handlers := by
  refine ⟨demoEngine, rfl, by decide, by decide, ?_⟩
  rintro ⟨r, hr, _⟩
  have hnone : getValue demoEngine.trees "GET" "/api/v1/projects".toList = none := by decide
  rw [hnone] at hr
  exact Option.noConfusion hr

/-- C10, as amended: for every configuration whose App.APIPrefix is empty or is a
rooted path other than "/" that path.Clean leaves unchanged, and contains no ':'
or '*', and for every table that holds the routes registered by Serve (in the
order of registration or in any other order): a GET request whose path is
APIPrefix ++ "/v1/projects/received" resolves to the route /projects/received
ending in project.ListReceiveHistory, and a GET request to
APIPrefix ++ "/v1/projects/" ++ x, for every non-empty x without a slash other
than "received", resolves to the route /projects/:id ending in
project.GetProject. -/
theorem received_before_id (cfg : Config) (env : Env) (e : Engine)
    (h : Serve cfg env = .ok e) (hc : cleanPrefix cfg.App.APIPrefix.toList)
    (hp : ∀ c ∈ cfg.App.APIPrefix.toList, c ≠ ':' ∧ c ≠ '*')
    (trees : List RouteInfo) (hmem : ∀ r, r ∈ trees ↔ r ∈ e.trees) :
    (∃ r, getValue trees "GET"
        (cfg.App.APIPrefix.toList ++ "/v1/projects/received".toList) = some r ∧
      r.Path = cfg.App.APIPrefix.toList ++ "/v1/projects/received".toList ∧
      r.Handlers.getLast? = some Handler.ListReceiveHistory) ∧
    ∀ x : List Char, x ≠ [] → '/' ∉ x → x ≠ "received".toList →
      ∃ r, getValue trees "GET"
          (cfg.App.APIPrefix.toList ++ "/v1/projects/".toList ++ x) = some r ∧
        r.Path = cfg.App.APIPrefix.toList ++ "/v1/projects/:id".toList ∧
        r.Handlers.getLast? = some Handler.GetProject := by
  have hK := prefixSegs_clean cfg.App.APIPrefix.toList
  have hK0 := prefixSegs_literal cfg.App.APIPrefix.toList hp
  have hpe : absPath (prefixSegs cfg.App.APIPrefix.toList) = cfg.App.APIPrefix.toList :=
    effectivePrefix_of_clean _ hc
  have htrees : e.trees = routeTable (absPath (prefixSegs cfg.App.APIPrefix.toList))
      (engineChain cfg) := (Serve_trees h).1
  rw [htrees] at hmem
  constructor
  · have hr := getValue_received_any _ hK hK0 (engineChain cfg) trees hmem
    rw [hpe] at hr
    exact ⟨_, hr, rfl, by simp⟩
  · intro x hx1 hx2 hx3
    have hr := getValue_id_any _ hK hK0 (engineChain cfg) x hx1 hx2 hx3 trees hmem
    rw [hpe] at hr
    exact ⟨_, hr, rfl, by simp⟩

/-- Witness for the amended C10 at the sample configuration, with the route
table in reverse order of registration: /api/v1/projects/received and
/api/v1/projects/42. -/
theorem received_before_id_witness :
    Serve demoConfig okEnv = .ok demoEngine ∧
    cleanPrefix demoConfig.App.APIPrefix.toList ∧
    (∀ c ∈ demoConfig.App.APIPrefix.toList, c ≠ ':' ∧ c ≠ '*') ∧
    (∃ r, getValue demoEngine.trees.reverse "GET" "/api/v1/projects/received".toList =
        some r ∧
      r.Handlers.getLast? = some Handler.ListReceiveHistory) ∧
    (∃ r, getValue demoEngine.trees.reverse "GET" "/api/v1/projects/42".toList = some r ∧
      r.Handlers.getLast? = some Handler.GetProject) := by
  have hw := received_before_id demoConfig okEnv demoEngine rfl
    (Or.inr ⟨rfl, by decide, rfl⟩) (by decide) demoEngine.trees.reverse
    (fun _ => List.mem_reverse)
  refine ⟨rfl, Or.inr ⟨rfl, by decide, rfl⟩, by decide, ?_, ?_⟩
  · obtain ⟨r, hr, _, hl⟩ := hw.1
    exact ⟨r, hr, hl⟩
  · obtain ⟨r, hr, _, hl⟩ := hw.2 "42".toList (by decide) (by decide) (by decide)
    exact ⟨r, hr, hl⟩

/-- C10, counterexample: with App.APIPrefix = "/api/" the routes are registered
under "/api/v1", and the lookup of GET at APIPrefix ++ "/v1/projects/received",
which is "/api//v1/projects/received", finds no route. -/
theorem received_unclean_api_path :
    ∃ e, Serve otherConfig okEnv = .ok e ∧
      (∃ r ∈ e.trees, r.Method = "GET" ∧ r.Path = "/api/v1/projects/received".toList) ∧
      getValue e.trees "GET"
        (otherConfig.App.APIPrefix.toList ++ "/v1/projects/received".toList) = none := by
  refine ⟨⟨"debug", ⟨engineChain otherConfig, ['/']⟩,
    routeTable "/api".toList (engineChain otherConfig)⟩, rfl, ?_, by decide⟩
  exact ⟨⟨"GET", "/api/v1/projects/received".toList,
    engineChain otherConfig ++ [Handler.LoginRequired, Handler.ListReceiveHistory]⟩,
    by simp [routeTable], rfl, rfl⟩

end Router
